import Mathlib

/-!
# Price feeder: symbol classification and the ingestion cycle

A shallow embedding of `cmd/feeder/main.go` (namespace `Feeder`) and of the scoring
path of the code judge in `main.go` (namespace `Judge`).

* `splitSymbol` is the function of the same name (lines 126-139).
* `processEntry` is one iteration of the inner `for _, p := range raw` loop
  (lines 60-110), `processEntries` the whole inner loop, `mainCycle` one
  iteration of the outer `for` loop (lines 38-122) and `mainLoop` a finite run
  of the outer loop.

Modelling conventions.

* A Go `string` is a list of characters.  The quote tickers are ASCII and the
  symbols reach `splitSymbol` out of `encoding/json`, which only produces
  valid UTF-8, so that comparing a tail of the symbol with a quote byte by
  byte or code point by code point is the same test.
* A `float64` is a finite value, taken as an exact rational, or one of `+Inf`,
  `-Inf` and NaN, with the arithmetic of IEEE 754 on the three special values.
  Rounding and the overflow of finite results are not part of the model, and zero
  carries no sign.
* The results of the calls that leave the program (`strconv.ParseFloat`, the
  PostgreSQL lookup, the Redis `SET`, the batch submission) are given by an
  `Env`, one per cycle.
* The table hands back the prices it was given: the passage of a `float64`
  through the `NUMERIC` column is the identity.
* The `updated_at` column, the log lines and the sleeps are not modelled, nor is
  the call of `cache.GetAllKeysValues` at line 111, which only reads the cache and
  whose result is dropped.
-/

namespace Feeder

/-! ## Strings and the symbol classifier -/

/-- A Go string. -/
abbrev Str := List Char

/-- The `quotes` slice of `splitSymbol`, in source order (`"FDUSD"` is listed twice). -/
def quotes : List Str :=
  ["USDT".toList, "BUSD".toList, "USDC".toList, "FDUSD".toList, "TUSD".toList,
   "BTC".toList, "ETH".toList, "BNB".toList,
   "TRY".toList, "BRL".toList, "EUR".toList, "GBP".toList, "AUD".toList,
   "ZAR".toList, "JPY".toList, "RUB".toList, "UAH".toList,
   "NGN".toList, "VND".toList, "IDR".toList, "DAI".toList, "TRX".toList,
   "PAX".toList, "FDUSD".toList]

/-- The `for _, q := range quotes` loop of `splitSymbol`, over the entries still to
be visited: `len(symbol) > len(q) && symbol[len(symbol)-len(q):] == q` returns
`symbol[:len(symbol)-len(q)], q`; falling off the end returns `symbol, ""`. -/
def splitSymbolLoop (symbol : Str) : List Str → Str × Str
  | [] => (symbol, [])
  | q :: rest =>
    if symbol.length > q.length ∧ symbol.drop (symbol.length - q.length) = q then
      (symbol.take (symbol.length - q.length), q)
    else splitSymbolLoop symbol rest

/-- The function `splitSymbol(symbol string) (string, string)`. -/
def splitSymbol (symbol : Str) : Str × Str := splitSymbolLoop symbol quotes

/-- The test of the loop body of `splitSymbol`: `q` is a suffix of `symbol` and at
least one leading character is left. -/
def strictSuffix (q symbol : Str) : Prop :=
  symbol.length > q.length ∧ symbol.drop (symbol.length - q.length) = q

instance (q symbol : Str) : Decidable (strictSuffix q symbol) := by
  unfold strictSuffix; infer_instance

/-! ## The data of a cycle -/

/-- A `float64` of the source: a finite value, taken as an exact rational, one of
the two infinities, or NaN.  `strconv.ParseFloat` yields the three special values
without an error for the strings `Inf`, `-Inf` and `NaN`. -/
inductive Amount where
  | fin (q : ℚ)
  | posInf
  | negInf
  | nan
deriving DecidableEq

namespace Amount

/-- The operator `-` of `float64`. -/
def sub : Amount → Amount → Amount
  | fin x, fin y => fin (x - y)
  | fin _, posInf => negInf
  | fin _, negInf => posInf
  | fin _, nan => nan
  | posInf, fin _ => posInf
  | posInf, posInf => nan
  | posInf, negInf => posInf
  | posInf, nan => nan
  | negInf, fin _ => negInf
  | negInf, posInf => negInf
  | negInf, negInf => nan
  | negInf, nan => nan
  | nan, _ => nan

/-- The operator `*` of `float64`. -/
def mul : Amount → Amount → Amount
  | fin x, fin y => fin (x * y)
  | fin x, posInf => if x = 0 then nan else if 0 < x then posInf else negInf
  | fin x, negInf => if x = 0 then nan else if 0 < x then negInf else posInf
  | fin _, nan => nan
  | posInf, fin y => if y = 0 then nan else if 0 < y then posInf else negInf
  | posInf, posInf => posInf
  | posInf, negInf => negInf
  | posInf, nan => nan
  | negInf, fin y => if y = 0 then nan else if 0 < y then negInf else posInf
  | negInf, posInf => negInf
  | negInf, negInf => posInf
  | negInf, nan => nan
  | nan, _ => nan

/-- The operator `/` of `float64`.  A quotient by zero, which is an infinity or NaN
and no panic, takes the sign of the numerator, zero being unsigned here. -/
def div : Amount → Amount → Amount
  | fin x, fin y =>
    if y = 0 then (if x = 0 then nan else if 0 < x then posInf else negInf)
    else fin (x / y)
  | fin _, posInf => fin 0
  | fin _, negInf => fin 0
  | fin _, nan => nan
  | posInf, fin y => if 0 ≤ y then posInf else negInf
  | posInf, posInf => nan
  | posInf, negInf => nan
  | posInf, nan => nan
  | negInf, fin y => if 0 ≤ y then negInf else posInf
  | negInf, posInf => nan
  | negInf, negInf => nan
  | negInf, nan => nan
  | nan, _ => nan

/-- The unary `-` of `float64`. -/
def neg : Amount → Amount
  | fin x => fin (-x)
  | posInf => negInf
  | negInf => posInf
  | nan => nan

instance : Sub Amount := ⟨sub⟩

instance : Mul Amount := ⟨mul⟩

instance : Div Amount := ⟨div⟩

instance : Neg Amount := ⟨neg⟩

instance (n : Nat) : OfNat Amount n := ⟨fin n⟩

/-- The value is neither an infinity nor NaN. -/
def isFinite : Amount → Bool
  | fin _ => true
  | _ => false

end Amount

/-- One element of `raw []map[string]string`, read through `p["symbol"]` and
`p["price"]` (a missing key reads as the empty string). -/
structure RawTicker where
  symbol : Str
  price : Str
deriving DecidableEq

/-- What `client.Get` followed by `json.NewDecoder(resp.Body).Decode(&raw)` yields. -/
inductive Fetched where
  | fetchError
  | decodeError
  | ok (raw : List RawTicker)
deriving DecidableEq

/-- The mutable columns of a row of `exdex_token` (without `updated_at`). -/
structure Row where
  price : Amount
  priceChange : Amount
  priceChangePercent : Amount
deriving DecidableEq

/-- The table `exdex_token`: at most one row per `(base_currency, quote_currency)`,
which is the `UNIQUE` constraint of the schema. -/
abbrev Store := Str × Str → Option Row

/-- The Redis key space: key to cached price (the source stores its `%f` rendering). -/
abbrev Cache := Str → Option Amount

/-- The argument list of one queued `INSERT ... ON CONFLICT ... DO UPDATE`
(without `time.Now()`). -/
structure Upsert where
  base : Str
  quote : Str
  price : Amount
  change : Amount
  changePercent : Amount
deriving DecidableEq

/-- The outcomes of the external calls of one cycle.
`parseFloat s` is `strconv.ParseFloat(s, 64)`, `none` standing for `err != nil`;
`queryErr i` says that the prior-price lookup made for the entry at index `i` of
the fetched list fails; `setErr i` says that the Redis `SET` made for that entry
fails; `batchErr` is `none` when `br.Close()` returns no error and `some k` when
it returns an error after `k` of the queued statements were applied. -/
structure Env where
  parseFloat : Str → Option Amount
  queryErr : Nat → Bool
  setErr : Nat → Bool
  batchErr : Option Nat

/-- The variables of the inner loop together with the two stores it talks to.
`cacheWrites` records the calls of `cache.SavePrice` and `divisors` the
denominators of the divisions carried out; both are only observed. -/
structure LoopState where
  db : Store
  cache : Cache
  batch : List Upsert
  count : Nat
  cacheWrites : List (Str × Amount)
  divisors : List Amount

/-! ## The inner loop -/

/-- Lines 74-77: `prevPrice` starts at zero and `Scan` overwrites it only when the
query finds a row and does not fail (the error is discarded). -/
def queryPrevPrice (queryErr : Bool) (db : Store) (base quote : Str) : Amount :=
  if queryErr then 0
  else match db (base, quote) with
    | some r => r.price
    | none => 0

/-- Lines 74 and 79-82: `change` and `changePercent` start at zero and are assigned
only under `if prevPrice != 0`.  The third component lists the denominators of the
divisions carried out. -/
def computeDelta (priceVal prevPrice : Amount) : Amount × Amount × List Amount :=
  if prevPrice ≠ 0 then
    (priceVal - prevPrice, ((priceVal - prevPrice) / prevPrice) * 100, [prevPrice])
  else (0, 0, [])

/-- Line 99: `fmt.Sprintf("%s_%s", base, quote)`. -/
def cacheKey (base quote : Str) : Str := base ++ "_".toList ++ quote

/-- The function `cache.SavePrice`: an unconditional `SET`; an error is logged and
leaves the cache as it was. -/
def SavePrice (setErr : Bool) (rdb : Cache) (key : Str) (price : Amount) : Cache :=
  if setErr then rdb else fun k => if k = key then some price else rdb k

/-- One iteration of `for _, p := range raw` (lines 60-110), for the entry at
index `i`. -/
def processEntry (env : Env) (i : Nat) (p : RawTicker) (st : LoopState) : LoopState :=
  let base := (splitSymbol p.symbol).1
  let quote := (splitSymbol p.symbol).2
  if quote = [] then st
  else
    match env.parseFloat p.price with
    | none => st
    | some priceVal =>
      let prevPrice := queryPrevPrice (env.queryErr i) st.db base quote
      let d := computeDelta priceVal prevPrice
      { db := st.db
        cache := SavePrice (env.setErr i) st.cache (cacheKey base quote) priceVal
        batch := st.batch ++ [⟨base, quote, priceVal, d.1, d.2.1⟩]
        count := st.count + 1
        cacheWrites := st.cacheWrites ++ [(cacheKey base quote, priceVal)]
        divisors := st.divisors ++ d.2.2 }

/-- The loop `for _, p := range raw`, from index `i` on. -/
def processEntries (env : Env) : Nat → List RawTicker → LoopState → LoopState
  | _, [], st => st
  | i, p :: rest, st => processEntries env (i + 1) rest (processEntry env i p st)

/-! ## The batch and the cycle -/

/-- The effect of one queued statement: insert the row, or on a conflict on
`(base_currency, quote_currency)` overwrite its columns. -/
def applyUpsert (db : Store) (u : Upsert) : Store :=
  fun k => if k = (u.base, u.quote) then some ⟨u.price, u.change, u.changePercent⟩ else db k

/-- Lines 113-116: `conn.SendBatch` and `br.Close()`.  The statements are applied in
queue order; on an error the first `k` have been applied (`k = 0` when the store
keeps nothing of a failed batch).  The error is only logged. -/
def sendBatch (batchErr : Option Nat) (db : Store) (batch : List Upsert) : Store :=
  match batchErr with
  | none => batch.foldl applyUpsert db
  | some k => (batch.take k).foldl applyUpsert db

/-- What one iteration of the outer loop leaves behind and reports.
`reported` is the number printed by the `[CYCLE DONE]` line, `none` when the cycle
ends at a `continue`. -/
structure CycleOut where
  db : Store
  cache : Cache
  batch : List Upsert
  cacheWrites : List (Str × Amount)
  divisors : List Amount
  reported : Option Nat

/-- The loop variables at line 57-58: `batch := &pgx.Batch{}` and `count := 0`. -/
def initLoop (db : Store) (cache : Cache) : LoopState :=
  { db := db, cache := cache, batch := [], count := 0, cacheWrites := [], divisors := [] }

/-- One iteration of the outer `for` loop (lines 38-122). -/
def mainCycle (env : Env) (db : Store) (cache : Cache) : Fetched → CycleOut
  | Fetched.fetchError =>
    { db := db, cache := cache, batch := [], cacheWrites := [], divisors := [], reported := none }
  | Fetched.decodeError =>
    { db := db, cache := cache, batch := [], cacheWrites := [], divisors := [], reported := none }
  | Fetched.ok raw =>
    let st := processEntries env 0 raw (initLoop db cache)
    { db := sendBatch env.batchErr st.db st.batch
      cache := st.cache
      batch := st.batch
      cacheWrites := st.cacheWrites
      divisors := st.divisors
      reported := some st.count }

/-- A finite run of the outer loop: the stores after the listed cycles. -/
def mainLoop : List (Env × Fetched) → Store × Cache → Store × Cache
  | [], s => s
  | (env, f) :: rest, s =>
    mainLoop rest ((mainCycle env s.1 s.2 f).db, (mainCycle env s.1 s.2 f).cache)

/-! ## Derived notions used to state the properties -/

/-- The entry passes both filters of the loop body: its symbol classifies and its
price string parses.  The value is the pair and the parsed price. -/
def validEntry (env : Env) (p : RawTicker) : Option (Str × Str × Amount) :=
  if (splitSymbol p.symbol).2 = [] then none
  else (env.parseFloat p.price).map
    (fun v => ((splitSymbol p.symbol).1, (splitSymbol p.symbol).2, v))

/-- The statement that the entry at index `i` queues when the lookups of the cycle
are answered from the store `db`. -/
def stageEntry (env : Env) (db : Store) (i : Nat) (p : RawTicker) : Option Upsert :=
  (validEntry env p).map (fun x =>
    ⟨x.1, x.2.1, x.2.2,
     (computeDelta x.2.2 (queryPrevPrice (env.queryErr i) db x.1 x.2.1)).1,
     (computeDelta x.2.2 (queryPrevPrice (env.queryErr i) db x.1 x.2.1)).2.1⟩)

/-- The statements queued by the entries of `raw`, numbered from `i`, when every
lookup is answered from the one store `db`. -/
def stageAll (env : Env) (db : Store) (i : Nat) (raw : List RawTicker) : List Upsert :=
  (raw.enumFrom i).filterMap (fun ip => stageEntry env db ip.1 ip.2)

/-- The Redis writes of the cycle that succeed, in feed order: the key and the price
of every valid entry whose `SET` does not fail, the entries being numbered from `i`. -/
def successfulWrites (env : Env) (i : Nat) (raw : List RawTicker) : List (Str × Amount) :=
  (raw.enumFrom i).filterMap (fun ip =>
    if env.setErr ip.1 then none
    else (validEntry env ip.2).map (fun x => (cacheKey x.1 x.2.1, x.2.2)))

/-- What a key holds after a list of writes, from what it held before: each write to
the key replaces what is held. -/
def heldAfter (k : Str) (writes : List (Str × Amount)) (held : Option Amount) :
    Option Amount :=
  writes.foldl (fun h w => if w.1 = k then some w.2 else h) held

/-- Every store operation of the cycle succeeds: no lookup fails and the batch is
applied whole. -/
def storeOk (env : Env) : Prop :=
  (∀ i, env.queryErr i = false) ∧ env.batchErr = none

/-- The longest entry of `qs` passing the test of `splitSymbol`, if any. -/
def longestMatch (symbol : Str) : List Str → Option Str
  | [] => none
  | q :: rest =>
    match longestMatch symbol rest with
    | none => if strictSuffix q symbol then some q else none
    | some r => if strictSuffix q symbol ∧ r.length < q.length then some q else some r

/-- Longest-suffix-match classification, the alternative that the design notes set
against the first-match scan of `splitSymbol`. -/
def splitSymbolLongest (symbol : Str) : Str × Str :=
  match longestMatch symbol quotes with
  | none => (symbol, [])
  | some q => (symbol.take (symbol.length - q.length), q)

/-! ## Concrete inputs -/

/-- The digits of a numeral as a number: `none` when a character is not a digit. -/
def parseDigits : Str → Option Nat
  | [] => some 0
  | cs => cs.foldl (fun acc c =>
      match acc with
      | none => none
      | some n => if c.isDigit then some (10 * n + (c.toNat - 48)) else none) (some 0)

/-- The numerals `ddd` and `ddd.ddd` as a mantissa and a number of decimals. -/
def parseMantissa (s : Str) : Option (Nat × Nat) :=
  let whole := s.takeWhile (fun c => c != '.')
  let rest := s.dropWhile (fun c => c != '.')
  if whole = [] then none
  else match rest with
    | [] => (parseDigits whole).map (fun n => (n, 0))
    | _ :: frac =>
      if frac = [] then none
      else (parseDigits (whole ++ frac)).map (fun n => (n, frac.length))

/-- A stand-in for `strconv.ParseFloat` on plain decimal numerals, with which the
model is run on concrete feeds. -/
def parseDecimal (s : Str) : Option Amount :=
  (parseMantissa s).map (fun mk => Amount.fin ((mk.1 : ℚ) / (10 : ℚ) ^ mk.2))

/-- An environment in which every external call succeeds. -/
def okEnv : Env :=
  { parseFloat := parseDecimal, queryErr := fun _ => false, setErr := fun _ => false,
    batchErr := none }

/-- The empty table. -/
def emptyStore : Store := fun _ => none

/-- The empty cache. -/
def emptyCache : Cache := fun _ => none

/-- The symbol `BTCUSDT`. -/
def BTCUSDT : Str := "BTCUSDT".toList

/-- The currency `BTC`. -/
def BTC : Str := "BTC".toList

/-- The currency `USDT`. -/
def USDT : Str := "USDT".toList

/-- The price string `0.00000000`. -/
def zeroPrice : Str := "0.00000000".toList

/-- The price string `50000.00`. -/
def price50000 : Str := "50000.00".toList

/-- The price string `51000.00`. -/
def price51000 : Str := "51000.00".toList

/-- The price string `1`. -/
def priceOne : Str := "1".toList

/-- The price string `2`. -/
def priceTwo : Str := "2".toList

/-- The table after the first observation of `BTCUSDT` at `50000.00`. -/
def storeAt50000 : Store := applyUpsert emptyStore ⟨BTC, USDT, 50000, 0, 0⟩

/-- A feed of one entry. -/
def feed1 (symbol price : Str) : Fetched := Fetched.ok [⟨symbol, price⟩]

/-- An environment in which every prior-price lookup fails and everything else
succeeds. -/
def queryDownEnv : Env :=
  { parseFloat := parseDecimal, queryErr := fun _ => true, setErr := fun _ => false,
    batchErr := none }

/-- The price string `NaN`. -/
def nanPrice : Str := "NaN".toList

/-- A stand-in for `strconv.ParseFloat` that reads `NaN` besides the plain decimal
numerals. -/
def parseDecimalOrNaN (s : Str) : Option Amount :=
  if s = nanPrice then some Amount.nan else parseDecimal s

/-- An environment in which every external call succeeds and whose parser reads
`NaN`. -/
def nanEnv : Env :=
  { parseFloat := parseDecimalOrNaN, queryErr := fun _ => false, setErr := fun _ => false,
    batchErr := none }

/-- The symbol `ETHUSDT`. -/
def ETHUSDT : Str := "ETHUSDT".toList

/-- The currency `ETH`. -/
def ETH : Str := "ETH".toList

/-- The feed that names `BTCUSDT` twice, at `1` and at `2`, and `ETHUSDT` at `NaN`. -/
def mixedFeed : List RawTicker :=
  [⟨BTCUSDT, priceOne⟩, ⟨BTCUSDT, priceTwo⟩, ⟨ETHUSDT, nanPrice⟩]

/-- An environment in which every Redis `SET` fails and everything else succeeds. -/
def cacheDownEnv : Env :=
  { parseFloat := parseDecimal, queryErr := fun _ => false, setErr := fun _ => true,
    batchErr := none }

/-- An environment in which the batch submission fails at once and everything else
succeeds. -/
def batchDownEnv : Env :=
  { parseFloat := parseDecimal, queryErr := fun _ => false, setErr := fun _ => false,
    batchErr := some 0 }

/-- A symbol whose base contains underscores. -/
def underscoreSymbol : Str := "A_B_USDT".toList

end Feeder

/-! # The code judge: scoring of a submission (`main.go`) -/

namespace Judge

/-- The values that the judge keeps in an `interface{}`: the expected results of the
test table and the parsed outputs (`int`, `[]int`, `[][]int`, `string`). -/
inductive Value where
  | int (n : Int)
  | ints (l : List Int)
  | matrix (l : List (List Int))
  | str (s : String)
deriving DecidableEq

/-- The struct `testCase`. -/
structure testCase where
  input : String
  expected : Value
deriving DecidableEq

/-- The struct `TestResult`; `Output` is `none` for the `nil` of a failed run. -/
structure TestResult where
  Passed : Bool
  Expected : Value
  Output : Option Value
  Error : String
deriving DecidableEq

/-- The struct `SubmitResponse`. -/
structure SubmitResponse where
  Results : List TestResult
  AllPassed : Bool
  PassedCount : Int
  TotalTests : Int
  MaxScore : Int
  EarnedScore : Int
deriving DecidableEq

/-- What lies outside the program: the run of the submitted code by `python3` or
`node` followed by `parseOutput` (the result of `executePython` and of
`executeJavaScript`, an error being its message), and `json.Marshal`. -/
structure Runner where
  executePython : Int → String → String → Except String Value
  executeJavaScript : Int → String → String → Except String Value
  jsonMarshal : Value → String

/-- The function `getTestCases`: the `switch` on `problemID` with its seven cases and
the empty slice after it. -/
def getTestCases (problemID : Int) : List testCase :=
  if problemID = 0 then
    [⟨"[2,7,11,15],9", Value.ints [0, 1]⟩,
     ⟨"[3,2,4],6", Value.ints [1, 2]⟩,
     ⟨"[3,3],6", Value.ints [0, 1]⟩,
     ⟨"[1,5,3,7,9],12", Value.ints [2, 4]⟩,
     ⟨"[10,20,30,40],50", Value.ints [1, 2]⟩]
  else if problemID = 1 then
    [⟨"[1,2,3,4,5]", Value.int 15⟩,
     ⟨"[10,20,30]", Value.int 60⟩,
     ⟨"[-1,-2,-3]", Value.int (-6)⟩,
     ⟨"[0,0,0,0]", Value.int 0⟩,
     ⟨"[100]", Value.int 100⟩]
  else if problemID = 2 then
    [⟨"[3,1,4,1,5,9,2,6]", Value.int 1⟩,
     ⟨"[10,5,20,8]", Value.int 5⟩,
     ⟨"[-5,-10,-3]", Value.int (-10)⟩,
     ⟨"[100]", Value.int 100⟩,
     ⟨"[7,7,7,7,7]", Value.int 7⟩]
  else if problemID = 3 then
    [⟨"[[1,2,3],[4,5,6],[7,8,9]]", Value.matrix [[7, 4, 1], [8, 5, 2], [9, 6, 3]]⟩,
     ⟨"[[5,1,9,11],[2,4,8,10],[13,3,6,7],[15,14,12,16]]",
      Value.matrix [[15, 13, 2, 5], [14, 3, 4, 1], [12, 6, 8, 9], [16, 7, 10, 11]]⟩,
     ⟨"[[1]]", Value.matrix [[1]]⟩,
     ⟨"[[1,2],[3,4]]", Value.matrix [[3, 1], [4, 2]]⟩,
     ⟨"[[2,29,20,26],[16,28,15,17],[9,4,5,19]]",
      Value.matrix [[9, 16, 2], [4, 28, 29], [5, 15, 20], [19, 17, 26]]⟩]
  else if problemID = 4 then
    [⟨"[0,1,0,3,12]", Value.ints [1, 3, 12, 0, 0]⟩,
     ⟨"[0]", Value.ints [0]⟩,
     ⟨"[1,2,3]", Value.ints [1, 2, 3]⟩,
     ⟨"[0,0,1]", Value.ints [1, 0, 0]⟩,
     ⟨"[2,1,0,0,4,0,5]", Value.ints [2, 1, 4, 5, 0, 0, 0]⟩]
  else if problemID = 5 then
    [⟨"[2,2,1]", Value.int 1⟩,
     ⟨"[4,1,2,1,2]", Value.int 4⟩,
     ⟨"[1]", Value.int 1⟩,
     ⟨"[7,3,5,3,7]", Value.int 5⟩,
     ⟨"[10,20,10,30,20]", Value.int 30⟩]
  else if problemID = 6 then
    [⟨"[\"flower\",\"flow\",\"flight\"]", Value.str "fl"⟩,
     ⟨"[\"dog\",\"racecar\",\"car\"]", Value.str ""⟩,
     ⟨"[\"interspecies\",\"interstellar\",\"interstate\"]", Value.str "inters"⟩,
     ⟨"[\"prefix\",\"preface\",\"preview\"]", Value.str "pre"⟩,
     ⟨"[\"alone\"]", Value.str "alone"⟩]
  else []

/-- The function `getProblemMaxScore`: a lookup in the map `scores`, a missing key
reading as `0`. -/
def getProblemMaxScore (problemID : Int) : Int :=
  if problemID = 0 then 10
  else if problemID = 1 then 10
  else if problemID = 2 then 10
  else if problemID = 3 then 20
  else if problemID = 4 then 10
  else if problemID = 5 then 15
  else if problemID = 6 then 10
  else 0

/-- The function `executeGo`, which always fails. -/
def executeGo (_problemID : Int) (_code _input : String) : Except String Value :=
  Except.error "Go execution not fully implemented in this demo"

/-- The function `executeCode`: the `switch` on `language`. -/
def executeCode (r : Runner) (problemID : Int) (code language input : String) :
    Except String Value :=
  if language = "python" then r.executePython problemID code input
  else if language = "javascript" then r.executeJavaScript problemID code input
  else if language = "golang" then executeGo problemID code input
  else Except.error "language not supported"

/-- The function `compareOutput`: equality of the two JSON renderings. -/
def compareOutput (r : Runner) (output expected : Value) : Bool :=
  r.jsonMarshal output == r.jsonMarshal expected

/-- The function `runTestCases`: one result per test case, in order. -/
def runTestCases (r : Runner) (problemID : Int) (code language : String) :
    List TestResult :=
  (getTestCases problemID).map (fun tc =>
    match executeCode r problemID code language tc.input with
    | Except.error e => ⟨false, tc.expected, none, e⟩
    | Except.ok output => ⟨compareOutput r output tc.expected, tc.expected, some output, ""⟩)

/-- The counting loop of `submitCode`: `passedCount++` for every result that passed. -/
def countPassed (results : List TestResult) : Int :=
  results.foldl (fun passedCount result => if result.Passed then passedCount + 1 else passedCount) 0

/-- The function `submitCode` from the decoded request on.  The value is the response
written, and `none` when the integer division panics on a zero divisor.  Go divides
integers by truncation; the operands stay far below the range of `int`.  The insert
into `submissions` only logs its error and is left out. -/
def submitCode (r : Runner) (problemID : Int) (code language : String) :
    Option SubmitResponse :=
  let results := runTestCases r problemID code language
  let passedCount := countPassed results
  let allPassed := passedCount == (results.length : Int)
  let maxScore := getProblemMaxScore problemID
  if (results.length : Int) = 0 then none
  else
    some { Results := results
           AllPassed := allPassed
           PassedCount := passedCount
           TotalTests := (results.length : Int)
           MaxScore := maxScore
           EarnedScore := Int.tdiv (passedCount * maxScore) (results.length : Int) }

/-- A runner whose every run returns the integer `15`, rendered by a marshaller that
tells the values of the example apart. -/
def fifteenRunner : Runner :=
  { executePython := fun _ _ _ => Except.ok (Value.int 15)
    executeJavaScript := fun _ _ _ => Except.ok (Value.int 15)
    jsonMarshal := fun v => match v with
      | Value.int n => toString n
      | _ => "other" }

end Judge

namespace Feeder

/-! ## Facts about amounts -/

theorem Amount.ofNat_eq (n : Nat) : (OfNat.ofNat n : Amount) = Amount.fin (n : ℚ) := rfl

theorem Amount.fin_sub (x y : ℚ) : Amount.fin x - Amount.fin y = Amount.fin (x - y) := rfl

theorem Amount.fin_mul (x y : ℚ) : Amount.fin x * Amount.fin y = Amount.fin (x * y) := rfl

theorem Amount.fin_div (x y : ℚ) (h : y ≠ 0) :
    Amount.fin x / Amount.fin y = Amount.fin (x / y) := by
  show Amount.div _ _ = _
  simp [Amount.div, h]

theorem Amount.neg_fin (x : ℚ) : -Amount.fin x = Amount.fin (-x) := rfl

theorem Amount.isFinite_iff (a : Amount) : a.isFinite = true ↔ ∃ q, a = Amount.fin q := by
  cases a <;> simp [Amount.isFinite]

/-! ## Facts about the symbol classifier -/

/-- The slice comparison of `splitSymbol` is the suffix test. -/
theorem drop_eq_iff_suffix (q s : Str) :
    s.drop (s.length - q.length) = q ↔ q <:+ s := by
  constructor
  · intro h
    have := List.drop_suffix (s.length - q.length) s
    rwa [h] at this
  · rintro ⟨t, rfl⟩
    simp

theorem strictSuffix_iff (q s : Str) :
    strictSuffix q s ↔ q.length < s.length ∧ q <:+ s := by
  unfold strictSuffix
  rw [drop_eq_iff_suffix]

/-- Cutting a suffix off and putting it back. -/
theorem take_append_of_suffix (q s : Str) (h : q <:+ s) :
    s.take (s.length - q.length) ++ q = s := by
  have h2 := (drop_eq_iff_suffix q s).2 h
  calc s.take (s.length - q.length) ++ q
      = s.take (s.length - q.length) ++ s.drop (s.length - q.length) := by rw [h2]
    _ = s := List.take_append_drop _ _

/-- When no entry passes the test the loop falls through. -/
theorem splitSymbolLoop_none (s : Str) (qs : List Str)
    (h : ∀ q ∈ qs, ¬ strictSuffix q s) : splitSymbolLoop s qs = (s, []) := by
  induction qs with
  | nil => rfl
  | cons q rest ih =>
    have hq : ¬ strictSuffix q s := h q (List.mem_cons_self _ _)
    have hr : ∀ r ∈ rest, ¬ strictSuffix r s := fun r hr => h r (List.mem_cons_of_mem _ hr)
    unfold strictSuffix at hq
    rw [splitSymbolLoop, if_neg hq]
    exact ih hr

/-- When some entry passes the test the loop returns at the first one. -/
theorem splitSymbolLoop_first (s : Str) (qs : List Str)
    (h : ∃ q ∈ qs, strictSuffix q s) :
    ∃ i r, qs[i]? = some r ∧ strictSuffix r s ∧
      (∀ (j : Nat) (t : Str), j < i → qs[j]? = some t → ¬ strictSuffix t s) ∧
      splitSymbolLoop s qs = (s.take (s.length - r.length), r) := by
  induction qs with
  | nil => obtain ⟨q, hq, _⟩ := h; cases hq
  | cons q rest ih =>
    by_cases hq : strictSuffix q s
    · refine ⟨0, q, by simp, hq, ?_, ?_⟩
      · intro j t hj; omega
      · have hq2 := hq
        unfold strictSuffix at hq2
        rw [splitSymbolLoop, if_pos hq2]
    · have hr : ∃ r ∈ rest, strictSuffix r s := by
        obtain ⟨r, hr, hrs⟩ := h
        rcases List.mem_cons.1 hr with rfl | hr
        · exact absurd hrs hq
        · exact ⟨r, hr, hrs⟩
      obtain ⟨i, r, hi, hrs, hmin, heq⟩ := ih hr
      refine ⟨i + 1, r, by simpa using hi, hrs, ?_, ?_⟩
      · intro j t hj hjt
        cases j with
        | zero =>
          simp at hjt
          subst hjt
          exact hq
        | succ j =>
          simp at hjt
          exact hmin j t (by omega) hjt
      · have hq2 := hq
        unfold strictSuffix at hq2
        rw [splitSymbolLoop, if_neg hq2]
        exact heq

/-- The two outcomes of `splitSymbol`: either no entry passes the test and the
symbol comes back with an empty quote, or the quote is a listed entry that is a
strict suffix and the base is what precedes it. -/
theorem splitSymbol_cases (s : Str) :
    ((∀ q ∈ quotes, ¬ strictSuffix q s) ∧ splitSymbol s = (s, [])) ∨
    ((splitSymbol s).2 ∈ quotes ∧ strictSuffix (splitSymbol s).2 s ∧
      (splitSymbol s).1 = s.take (s.length - (splitSymbol s).2.length)) := by
  by_cases h : ∃ q ∈ quotes, strictSuffix q s
  · right
    obtain ⟨i, r, hi, hrs, _, heq⟩ := splitSymbolLoop_first s quotes h
    have hmem : r ∈ quotes := List.getElem?_mem hi
    unfold splitSymbol
    rw [heq]
    exact ⟨hmem, hrs, rfl⟩
  · left
    have h2 : ∀ q ∈ quotes, ¬ strictSuffix q s := fun q hq hs => h ⟨q, hq, hs⟩
    exact ⟨h2, splitSymbolLoop_none s quotes h2⟩

/-- No listed quote is empty. -/
theorem quotes_ne_nil : ∀ q ∈ quotes, q ≠ [] := by decide

/-- A classified symbol is its base followed by its quote. -/
theorem splitSymbol_append (s : Str) (h : (splitSymbol s).2 ≠ []) :
    (splitSymbol s).1 ++ (splitSymbol s).2 = s := by
  rcases splitSymbol_cases s with ⟨_, h2⟩ | ⟨_, hs, hb⟩
  · rw [h2] at h; exact absurd rfl h
  · rw [hb]
    exact take_append_of_suffix _ _ ((strictSuffix_iff _ _).1 hs).2

/-! ## C1 -/

/-- C1: when some listed quote `q` is a suffix of `s` and shorter than `s`,
`splitSymbol s` is `(s` without its last `len r` characters`, r)` for the entry `r`
at the first index of the quote list holding such a strict suffix of `s`; the base
is not empty, the quote is listed, and base followed by quote is `s`. -/
theorem splitSymbol_first_match (s q : Str) (hq : q ∈ quotes)
    (hlen : q.length < s.length) (hsuf : q <:+ s) :
    ∃ i r, quotes[i]? = some r ∧ (r.length < s.length ∧ r <:+ s) ∧
      (∀ (j : Nat) (t : Str), j < i → quotes[j]? = some t → ¬ (t.length < s.length ∧ t <:+ s)) ∧
      splitSymbol s = (s.take (s.length - r.length), r) ∧
      (splitSymbol s).1 ≠ [] ∧ (splitSymbol s).2 ∈ quotes ∧
      (splitSymbol s).1 ++ (splitSymbol s).2 = s := by
  obtain ⟨i, r, hi, hrs, hmin, heq⟩ :=
    splitSymbolLoop_first s quotes ⟨q, hq, (strictSuffix_iff q s).2 ⟨hlen, hsuf⟩⟩
  have hr := (strictSuffix_iff r s).1 hrs
  have hmem : r ∈ quotes := List.getElem?_mem hi
  have heq2 : splitSymbol s = (s.take (s.length - r.length), r) := heq
  refine ⟨i, r, hi, hr, ?_, heq2, ?_, ?_, ?_⟩
  · intro j t hj hjt hts
    exact hmin j t hj hjt ((strictSuffix_iff t s).2 hts)
  · rw [heq2]
    intro hnil
    have hlen2 := congrArg List.length hnil
    simp at hlen2
    omega
  · rw [heq2]; exact hmem
  · rw [heq2]; exact take_append_of_suffix r s hr.2

theorem splitSymbol_first_match_witness :
    ∃ i r, quotes[i]? = some r ∧ (r.length < "BTCUSDT".toList.length ∧ r <:+ "BTCUSDT".toList) ∧
      (∀ (j : Nat) (t : Str), j < i → quotes[j]? = some t →
        ¬ (t.length < "BTCUSDT".toList.length ∧ t <:+ "BTCUSDT".toList)) ∧
      splitSymbol "BTCUSDT".toList = ("BTCUSDT".toList.take ("BTCUSDT".toList.length - r.length), r) ∧
      (splitSymbol "BTCUSDT".toList).1 ≠ [] ∧ (splitSymbol "BTCUSDT".toList).2 ∈ quotes ∧
      (splitSymbol "BTCUSDT".toList).1 ++ (splitSymbol "BTCUSDT".toList).2 = "BTCUSDT".toList :=
  splitSymbol_first_match "BTCUSDT".toList "USDT".toList (by decide) (by decide) (by decide)

/-! ## C6 -/

/-- No listed quote is a suffix of a different listed quote. -/
theorem quotes_suffix_free : ∀ q ∈ quotes, ∀ r ∈ quotes, q <:+ r → q = r := by
  decide

/-- Two listed quotes that are suffixes of one symbol are the same quote. -/
theorem quote_suffix_unique (s q r : Str) (hq : q ∈ quotes) (hr : r ∈ quotes)
    (hqs : q <:+ s) (hrs : r <:+ s) : q = r := by
  rcases List.suffix_or_suffix_of_suffix hqs hrs with h | h
  · exact quotes_suffix_free q hq r hr h
  · exact (quotes_suffix_free r hr q hq h).symm

/-- Every listed strict suffix of a symbol is the quote that `splitSymbol` returns. -/
theorem splitSymbol_quote_eq (s q : Str) (hq : q ∈ quotes) (hs : strictSuffix q s) :
    (splitSymbol s).2 = q := by
  rcases splitSymbol_cases s with ⟨hno, _⟩ | ⟨hmem, hs2, _⟩
  · exact absurd hs (hno q hq)
  · exact quote_suffix_unique s _ q hmem hq ((strictSuffix_iff _ _).1 hs2).2
      ((strictSuffix_iff _ _).1 hs).2

/-- What `longestMatch` returns is an entry passing the test, and it returns one
whenever some entry passes. -/
theorem longestMatch_spec (s : Str) (qs : List Str) :
    (∀ r, longestMatch s qs = some r → r ∈ qs ∧ strictSuffix r s) ∧
    (longestMatch s qs = none → ∀ q ∈ qs, ¬ strictSuffix q s) := by
  induction qs with
  | nil =>
    refine ⟨fun r h => ?_, fun _ q hq => ?_⟩
    · simp [longestMatch] at h
    · cases hq
  | cons q rest ih =>
    obtain ⟨ih1, ih2⟩ := ih
    cases hrest : longestMatch s rest with
    | none =>
      have hno := ih2 hrest
      by_cases hq : strictSuffix q s
      · refine ⟨fun r h => ?_, fun h => ?_⟩
        · simp [longestMatch, hrest, hq] at h
          subst h
          exact ⟨List.mem_cons_self _ _, hq⟩
        · simp [longestMatch, hrest, hq] at h
      · refine ⟨fun r h => ?_, fun _ t ht => ?_⟩
        · simp [longestMatch, hrest, hq] at h
        · rcases List.mem_cons.1 ht with rfl | ht
          · exact hq
          · exact hno t ht
    | some r0 =>
      obtain ⟨hr0m, hr0s⟩ := ih1 r0 hrest
      by_cases hq : strictSuffix q s ∧ r0.length < q.length
      · refine ⟨fun r h => ?_, fun h => ?_⟩
        · simp [longestMatch, hrest, hq] at h
          subst h
          exact ⟨List.mem_cons_self _ _, hq.1⟩
        · simp [longestMatch, hrest, hq] at h
      · refine ⟨fun r h => ?_, fun h => ?_⟩
        · simp only [longestMatch, hrest, if_neg hq, Option.some.injEq] at h
          subst h
          exact ⟨List.mem_cons_of_mem _ hr0m, hr0s⟩
        · simp only [longestMatch, hrest, if_neg hq] at h
          cases h

/-- C6 (as it holds): with the quote list of `splitSymbol` no symbol is mis-split.
Every listed entry that is a suffix of a symbol and shorter than it is the quote
that `splitSymbol` returns, and first-match classification agrees with
longest-suffix-match classification on every symbol. -/
theorem splitSymbol_eq_longest (s : Str) :
    (∀ q ∈ quotes, q.length < s.length → q <:+ s → (splitSymbol s).2 = q) ∧
    splitSymbol s = splitSymbolLongest s := by
  constructor
  · intro q hq hlen hsuf
    exact splitSymbol_quote_eq s q hq ((strictSuffix_iff q s).2 ⟨hlen, hsuf⟩)
  · obtain ⟨h1, h2⟩ := longestMatch_spec s quotes
    unfold splitSymbolLongest
    cases hl : longestMatch s quotes with
    | none =>
      exact splitSymbolLoop_none s quotes (h2 hl)
    | some r =>
      obtain ⟨hrm, hrs⟩ := h1 r hl
      have hq := splitSymbol_quote_eq s r hrm hrs
      rcases splitSymbol_cases s with ⟨hno, _⟩ | ⟨_, _, hb⟩
      · exact absurd hrs (hno r hrm)
      · rw [hq] at hb
        exact Prod.ext hb hq

/-- C6 (as stated) fails: there is no symbol for which `splitSymbol` returns a quote
while a different, longer listed entry is also a strict suffix of the symbol. -/
theorem splitSymbol_no_missplit :
    ¬ ∃ s r : Str, (splitSymbol s).2 ≠ [] ∧ r ∈ quotes ∧ r ≠ (splitSymbol s).2 ∧
      (splitSymbol s).2.length < r.length ∧ r.length < s.length ∧ r <:+ s := by
  rintro ⟨s, r, _, hr, hne, _, hlen, hsuf⟩
  exact hne (splitSymbol_quote_eq s r hr ((strictSuffix_iff r s).2 ⟨hlen, hsuf⟩)).symm

/-! ## Facts about the inner loop -/

/-- An entry failing one of the two filters leaves every loop variable as it was. -/
theorem processEntry_skip (env : Env) (i : Nat) (p : RawTicker) (st : LoopState)
    (h : validEntry env p = none) : processEntry env i p st = st := by
  unfold validEntry at h
  unfold processEntry
  by_cases hq : (splitSymbol p.symbol).2 = []
  · simp [hq]
  · cases hp : env.parseFloat p.price with
    | none => simp [hq]
    | some v => simp [hq, hp] at h

/-- An entry passing both filters queues one statement, writes the cache once and
counts once. -/
theorem processEntry_valid (env : Env) (i : Nat) (p : RawTicker) (st : LoopState)
    (x : Str × Str × Amount) (h : validEntry env p = some x) :
    processEntry env i p st =
      { db := st.db
        cache := SavePrice (env.setErr i) st.cache (cacheKey x.1 x.2.1) x.2.2
        batch := st.batch ++ [⟨x.1, x.2.1, x.2.2,
          (computeDelta x.2.2 (queryPrevPrice (env.queryErr i) st.db x.1 x.2.1)).1,
          (computeDelta x.2.2 (queryPrevPrice (env.queryErr i) st.db x.1 x.2.1)).2.1⟩]
        count := st.count + 1
        cacheWrites := st.cacheWrites ++ [(cacheKey x.1 x.2.1, x.2.2)]
        divisors := st.divisors ++
          (computeDelta x.2.2 (queryPrevPrice (env.queryErr i) st.db x.1 x.2.1)).2.2 } := by
  unfold validEntry at h
  unfold processEntry
  by_cases hq : (splitSymbol p.symbol).2 = []
  · simp [hq] at h
  · cases hp : env.parseFloat p.price with
    | none => simp [hq, hp] at h
    | some v =>
      simp only [hq, hp, if_false, Option.map_some', Option.some.injEq] at h
      subst h
      simp [hq]

/-- The loop body never touches the table. -/
theorem processEntry_db (env : Env) (i : Nat) (p : RawTicker) (st : LoopState) :
    (processEntry env i p st).db = st.db := by
  cases h : validEntry env p with
  | none => rw [processEntry_skip env i p st h]
  | some x => rw [processEntry_valid env i p st x h]

theorem processEntry_batch (env : Env) (i : Nat) (p : RawTicker) (st : LoopState) :
    (processEntry env i p st).batch = st.batch ++ (stageEntry env st.db i p).toList := by
  cases h : validEntry env p with
  | none => rw [processEntry_skip env i p st h]; simp [stageEntry, h]
  | some x => rw [processEntry_valid env i p st x h]; simp [stageEntry, h]

theorem processEntry_count (env : Env) (i : Nat) (p : RawTicker) (st : LoopState) :
    (processEntry env i p st).count = st.count + (validEntry env p).toList.length := by
  cases h : validEntry env p with
  | none => rw [processEntry_skip env i p st h]; simp
  | some x => rw [processEntry_valid env i p st x h]; simp

theorem processEntry_cacheWrites (env : Env) (i : Nat) (p : RawTicker) (st : LoopState) :
    (processEntry env i p st).cacheWrites =
      st.cacheWrites ++ (validEntry env p).toList.map (fun x => (cacheKey x.1 x.2.1, x.2.2)) := by
  cases h : validEntry env p with
  | none => rw [processEntry_skip env i p st h]; simp
  | some x => rw [processEntry_valid env i p st x h]; simp

/-- Throughout the inner loop the table is the one the cycle started with. -/
theorem processEntries_db (env : Env) (i : Nat) (raw : List RawTicker) (st : LoopState) :
    (processEntries env i raw st).db = st.db := by
  induction raw generalizing i st with
  | nil => rfl
  | cons p rest ih =>
    rw [processEntries, ih, processEntry_db]

/-- The batch built by the inner loop: every entry contributes what it stages
against the table the cycle started with. -/
theorem processEntries_batch (env : Env) (i : Nat) (raw : List RawTicker) (st : LoopState) :
    (processEntries env i raw st).batch = st.batch ++ stageAll env st.db i raw := by
  induction raw generalizing i st with
  | nil => simp [processEntries, stageAll]
  | cons p rest ih =>
    rw [processEntries, ih, processEntry_db, processEntry_batch]
    cases h : stageEntry env st.db i p with
    | none => simp [stageAll, h]
    | some u => simp [stageAll, h]

theorem processEntries_count (env : Env) (i : Nat) (raw : List RawTicker) (st : LoopState) :
    (processEntries env i raw st).count = st.count + (raw.filterMap (validEntry env)).length := by
  induction raw generalizing i st with
  | nil => simp [processEntries]
  | cons p rest ih =>
    rw [processEntries, ih, processEntry_count]
    cases h : validEntry env p with
    | none => simp [h]
    | some x => simp [h]; omega

theorem processEntries_cacheWrites (env : Env) (i : Nat) (raw : List RawTicker)
    (st : LoopState) :
    (processEntries env i raw st).cacheWrites =
      st.cacheWrites ++
        (raw.filterMap (validEntry env)).map (fun x => (cacheKey x.1 x.2.1, x.2.2)) := by
  induction raw generalizing i st with
  | nil => simp [processEntries]
  | cons p rest ih =>
    rw [processEntries, ih, processEntry_cacheWrites]
    cases h : validEntry env p with
    | none => simp [h]
    | some x => simp [h]

/-- The pairs and prices of the staged statements are those of the valid entries,
in feed order. -/
theorem stageAll_map (env : Env) (db : Store) (i : Nat) (raw : List RawTicker) :
    (stageAll env db i raw).map (fun u => (u.base, u.quote, u.price)) =
      raw.filterMap (validEntry env) := by
  induction raw generalizing i with
  | nil => simp [stageAll]
  | cons p rest ih =>
    have ih2 := ih (i + 1)
    unfold stageAll at ih2 ⊢
    cases h : validEntry env p with
    | none =>
      have hs : stageEntry env db i p = none := by simp [stageEntry, h]
      simp only [List.enumFrom_cons, List.filterMap_cons, hs, h]
      exact ih2
    | some x =>
      have hs : stageEntry env db i p = some ⟨x.1, x.2.1, x.2.2,
          (computeDelta x.2.2 (queryPrevPrice (env.queryErr i) db x.1 x.2.1)).1,
          (computeDelta x.2.2 (queryPrevPrice (env.queryErr i) db x.1 x.2.1)).2.1⟩ := by
        simp [stageEntry, h]
      simp only [List.enumFrom_cons, List.filterMap_cons, hs, h, List.map_cons]
      rw [ih2]

/-- Membership in the staged batch. -/
theorem mem_stageAll (env : Env) (db : Store) (i : Nat) (raw : List RawTicker) (u : Upsert) :
    u ∈ stageAll env db i raw ↔
      ∃ j p, (j, p) ∈ raw.enumFrom i ∧ stageEntry env db j p = some u := by
  unfold stageAll
  rw [List.mem_filterMap]
  constructor
  · rintro ⟨⟨j, p⟩, hm, hs⟩
    exact ⟨j, p, hm, hs⟩
  · rintro ⟨j, p, hm, hs⟩
    exact ⟨(j, p), hm, hs⟩

/-! ## Concrete evaluations -/

theorem splitSymbol_BTCUSDT : splitSymbol BTCUSDT = (BTC, USDT) := by decide

theorem USDT_ne_nil : USDT ≠ [] := by decide

theorem parseDecimal_50000 : parseDecimal price50000 = some 50000 := by
  have h : parseMantissa price50000 = some (5000000, 2) := by decide
  simp only [parseDecimal, h, Option.map, Amount.ofNat_eq]
  norm_num

theorem parseDecimal_51000 : parseDecimal price51000 = some 51000 := by
  have h : parseMantissa price51000 = some (5100000, 2) := by decide
  simp only [parseDecimal, h, Option.map, Amount.ofNat_eq]
  norm_num

theorem parseDecimal_zero : parseDecimal zeroPrice = some 0 := by
  have h : parseMantissa zeroPrice = some (0, 8) := by decide
  simp only [parseDecimal, h, Option.map, Amount.ofNat_eq]
  norm_num

theorem parseDecimal_1 : parseDecimal priceOne = some 1 := by
  have h : parseMantissa priceOne = some (1, 0) := by decide
  simp only [parseDecimal, h, Option.map, Amount.ofNat_eq]
  norm_num

theorem parseDecimal_2 : parseDecimal priceTwo = some 2 := by
  have h : parseMantissa priceTwo = some (2, 0) := by decide
  simp only [parseDecimal, h, Option.map, Amount.ofNat_eq]
  norm_num

/-! ## C3 and C4: the delta of one entry -/

/-- An entry whose symbol classifies to `(b, q)` and whose price parses is valid. -/
theorem validEntry_of (env : Env) (p : RawTicker) (b q : Str) (v : Amount)
    (hsplit : splitSymbol p.symbol = (b, q)) (hq : q ≠ [])
    (hparse : env.parseFloat p.price = some v) : validEntry env p = some (b, q, v) := by
  simp [validEntry, hsplit, hq, hparse]

/-- C3: when the lookup of the prior price fails, finds no row, or finds a row
whose price is zero, the statement staged for the entry carries change `0` and
changePercent `0`, and the entry adds no division to those carried out. -/
theorem zero_prior_delta (env : Env) (i : Nat) (p : RawTicker) (st : LoopState)
    (b q : Str) (v : Amount)
    (hsplit : splitSymbol p.symbol = (b, q)) (hq : q ≠ [])
    (hparse : env.parseFloat p.price = some v)
    (hprior : env.queryErr i = true ∨ st.db (b, q) = none ∨
      ∃ r, st.db (b, q) = some r ∧ r.price = 0) :
    (processEntry env i p st).batch = st.batch ++ [⟨b, q, v, 0, 0⟩] ∧
    (processEntry env i p st).divisors = st.divisors := by
  have hprev : queryPrevPrice (env.queryErr i) st.db b q = 0 := by
    unfold queryPrevPrice
    rcases hprior with h | h | ⟨r, h, hr⟩
    · simp [h]
    · simp [h]
    · simp [h, hr]
  rw [processEntry_valid env i p st (b, q, v) (validEntry_of env p b q v hsplit hq hparse)]
  simp [hprev, computeDelta]

theorem zero_prior_delta_witness :
    (processEntry okEnv 0 ⟨BTCUSDT, price50000⟩ (initLoop emptyStore emptyCache)).batch =
      (initLoop emptyStore emptyCache).batch ++ [⟨BTC, USDT, 50000, 0, 0⟩] ∧
    (processEntry okEnv 0 ⟨BTCUSDT, price50000⟩ (initLoop emptyStore emptyCache)).divisors =
      (initLoop emptyStore emptyCache).divisors :=
  zero_prior_delta okEnv 0 ⟨BTCUSDT, price50000⟩ (initLoop emptyStore emptyCache)
    BTC USDT 50000 splitSymbol_BTCUSDT USDT_ne_nil parseDecimal_50000 (Or.inr (Or.inl rfl))

/-- C4 (as it holds): when the lookup succeeds and finds a row whose price `prior` is
not zero,
the statement staged for an entry of price `new` carries change `new - prior` and
changePercent `(change / prior) * 100`, the one division being by `prior`; for
prior `50000` and new `51000` these are `1000` and `2`. -/
theorem nonzero_prior_delta (env : Env) (i : Nat) (p : RawTicker) (st : LoopState)
    (b q : Str) (v : Amount) (r : Row)
    (hsplit : splitSymbol p.symbol = (b, q)) (hq : q ≠ [])
    (hparse : env.parseFloat p.price = some v)
    (hquery : env.queryErr i = false) (hrow : st.db (b, q) = some r) (hne : r.price ≠ 0) :
    ((processEntry env i p st).batch =
        st.batch ++ [⟨b, q, v, v - r.price, ((v - r.price) / r.price) * 100⟩] ∧
      (processEntry env i p st).divisors = st.divisors ++ [r.price]) ∧
    (computeDelta 51000 50000).1 = 1000 ∧ (computeDelta 51000 50000).2.1 = 2 := by
  have hprev : queryPrevPrice (env.queryErr i) st.db b q = r.price := by
    unfold queryPrevPrice
    simp [hquery, hrow]
  refine ⟨?_, ?_, ?_⟩
  · rw [processEntry_valid env i p st (b, q, v) (validEntry_of env p b q v hsplit hq hparse)]
    simp [hprev, computeDelta, hne]
  · simp [computeDelta, Amount.ofNat_eq, Amount.fin_sub]
    norm_num
  · simp [computeDelta, Amount.ofNat_eq, Amount.fin_sub, Amount.fin_div, Amount.fin_mul]
    norm_num

theorem nonzero_prior_delta_witness :
    ((processEntry okEnv 0 ⟨BTCUSDT, price51000⟩ (initLoop storeAt50000 emptyCache)).batch =
        (initLoop storeAt50000 emptyCache).batch ++
          [⟨BTC, USDT, 51000, 51000 - (⟨50000, 0, 0⟩ : Row).price,
            ((51000 - (⟨50000, 0, 0⟩ : Row).price) / (⟨50000, 0, 0⟩ : Row).price) * 100⟩] ∧
      (processEntry okEnv 0 ⟨BTCUSDT, price51000⟩ (initLoop storeAt50000 emptyCache)).divisors =
        (initLoop storeAt50000 emptyCache).divisors ++ [(⟨50000, 0, 0⟩ : Row).price]) ∧
    (computeDelta 51000 50000).1 = 1000 ∧ (computeDelta 51000 50000).2.1 = 2 :=
  nonzero_prior_delta okEnv 0 ⟨BTCUSDT, price51000⟩ (initLoop storeAt50000 emptyCache)
    BTC USDT 51000 ⟨50000, 0, 0⟩ splitSymbol_BTCUSDT USDT_ne_nil parseDecimal_51000 rfl
    (by simp [initLoop, storeAt50000, applyUpsert]) (by simp [Amount.ofNat_eq])

/-- C4 (as stated) fails when the lookup fails: with `BTCUSDT` stored at `50000`,
which is not zero, and fetched at `51000.00`, a cycle whose lookup returns an error
stages change `0` and changePercent `0`, not `51000 - 50000`. -/
theorem failed_lookup_zero_delta :
    storeAt50000 (BTC, USDT) = some ⟨50000, 0, 0⟩ ∧ (50000 : Amount) ≠ 0 ∧
    queryDownEnv.parseFloat price51000 = some 51000 ∧
    (mainCycle queryDownEnv storeAt50000 emptyCache
        (Fetched.ok [⟨BTCUSDT, price51000⟩])).batch = [⟨BTC, USDT, 51000, 0, 0⟩] ∧
    (⟨BTC, USDT, 51000, 0, 0⟩ : Upsert).change ≠ 51000 - 50000 := by
  have hv : validEntry queryDownEnv ⟨BTCUSDT, price51000⟩ = some (BTC, USDT, 51000) :=
    validEntry_of queryDownEnv _ BTC USDT 51000 splitSymbol_BTCUSDT USDT_ne_nil
      parseDecimal_51000
  have hq : ∀ i, queryDownEnv.queryErr i = true := fun _ => rfl
  refine ⟨?_, ?_, parseDecimal_51000, ?_, ?_⟩
  · simp [storeAt50000, applyUpsert]
  · simp [Amount.ofNat_eq]
  · have hb : (mainCycle queryDownEnv storeAt50000 emptyCache
        (Fetched.ok [⟨BTCUSDT, price51000⟩])).batch =
        stageAll queryDownEnv storeAt50000 0 [⟨BTCUSDT, price51000⟩] := by
      simp [mainCycle, processEntries_batch, initLoop]
    rw [hb]
    simp only [stageAll, List.enumFrom_cons, List.enumFrom_nil, List.filterMap_cons,
      List.filterMap_nil, stageEntry, hv, hq, Option.map_some', queryPrevPrice, if_true]
    simp [computeDelta]
  · simp [Amount.ofNat_eq, Amount.fin_sub]
    norm_num

/-! ## C7 -/

/-- C7: a symbol of which no listed quote is a suffix shorter than the symbol comes
back from `splitSymbol` unchanged with an empty quote, and an entry naming it leaves
the loop variables, hence the batch, the cache and the list of cache writes, as
they were. -/
theorem unmatched_symbol_skipped (s : Str)
    (h : ∀ q ∈ quotes, ¬ (q.length < s.length ∧ q <:+ s)) :
    splitSymbol s = (s, []) ∧
    ∀ (env : Env) (i : Nat) (p : RawTicker) (st : LoopState), p.symbol = s →
      processEntry env i p st = st ∧
      (processEntry env i p st).batch = st.batch ∧
      (processEntry env i p st).cacheWrites = st.cacheWrites ∧
      (processEntry env i p st).cache = st.cache := by
  have hno : ∀ q ∈ quotes, ¬ strictSuffix q s :=
    fun q hq hs => h q hq ((strictSuffix_iff q s).1 hs)
  have hsplit : splitSymbol s = (s, []) := splitSymbolLoop_none s quotes hno
  refine ⟨hsplit, ?_⟩
  intro env i p st hp
  have hval : validEntry env p = none := by simp [validEntry, hp, hsplit]
  have hskip := processEntry_skip env i p st hval
  rw [hskip]
  exact ⟨rfl, rfl, rfl, rfl⟩

theorem unmatched_symbol_skipped_witness :
    (splitSymbol USDT = (USDT, []) ∧
      ∀ (env : Env) (i : Nat) (p : RawTicker) (st : LoopState), p.symbol = USDT →
        processEntry env i p st = st ∧
        (processEntry env i p st).batch = st.batch ∧
        (processEntry env i p st).cacheWrites = st.cacheWrites ∧
        (processEntry env i p st).cache = st.cache) ∧
    (splitSymbol [] = ([], []) ∧
      ∀ (env : Env) (i : Nat) (p : RawTicker) (st : LoopState), p.symbol = [] →
        processEntry env i p st = st ∧
        (processEntry env i p st).batch = st.batch ∧
        (processEntry env i p st).cacheWrites = st.cacheWrites ∧
        (processEntry env i p st).cache = st.cache) :=
  ⟨unmatched_symbol_skipped USDT (by decide), unmatched_symbol_skipped [] (by decide)⟩

/-! ## C8 -/

/-- The cache after the inner loop: every key holds what the successful writes of
the loop, applied in feed order, leave in it. -/
theorem processEntries_cache (env : Env) (i : Nat) (raw : List RawTicker) (st : LoopState)
    (k : Str) :
    (processEntries env i raw st).cache k =
      heldAfter k (successfulWrites env i raw) (st.cache k) := by
  induction raw generalizing i st with
  | nil => rfl
  | cons p rest ih =>
    rw [processEntries, ih]
    unfold successfulWrites heldAfter
    rw [List.enumFrom_cons, List.filterMap_cons]
    cases hv : validEntry env p with
    | none =>
      rw [processEntry_skip env i p st hv]
      cases hs : env.setErr i <;> simp [hv, hs]
    | some x =>
      rw [processEntry_valid env i p st x hv]
      cases hs : env.setErr i with
      | true => simp [hs, SavePrice]
      | false =>
        simp only [hv, hs, Bool.false_eq_true, if_false, Option.map_some', List.foldl_cons,
          SavePrice]
        by_cases hk : k = cacheKey x.1 x.2.1
        · simp [hk]
        · have hk2 : ¬ cacheKey x.1 x.2.1 = k := fun h => hk h.symm
          simp [hk, hk2]

/-- When no `SET` fails the successful writes are the calls of `SavePrice`. -/
theorem successfulWrites_of_ok (env : Env) (hs : ∀ i, env.setErr i = false) (i : Nat)
    (raw : List RawTicker) :
    successfulWrites env i raw =
      (raw.filterMap (validEntry env)).map (fun x => (cacheKey x.1 x.2.1, x.2.2)) := by
  induction raw generalizing i with
  | nil => simp [successfulWrites]
  | cons p rest ih =>
    have ih2 := ih (i + 1)
    unfold successfulWrites at ih2 ⊢
    rw [List.enumFrom_cons, List.filterMap_cons, List.filterMap_cons]
    cases hv : validEntry env p with
    | none => simp [hs i, ih2]
    | some x => simp [hs i, ih2]

/-- C8: for a decoded list `raw`, the pairs and prices of the staged batch are those
of the entries whose symbol classifies and whose price parses, one statement per
such entry in feed order; the calls of `SavePrice` are one per such entry in the
same order, under the key of its pair and with its price; the cache holds under
every key what the writes that succeeded, applied in that order, leave there, and
these are all the calls when no `SET` fails; an entry failing a filter is passed
over and the loop goes on with the next one; the reported count is the number of
staged statements. -/
theorem cycle_stages_valid_entries (env : Env) (db : Store) (cache : Cache)
    (raw : List RawTicker) :
    (mainCycle env db cache (Fetched.ok raw)).batch.map (fun u => (u.base, u.quote, u.price)) =
      raw.filterMap (validEntry env) ∧
    (mainCycle env db cache (Fetched.ok raw)).cacheWrites =
      (raw.filterMap (validEntry env)).map (fun x => (cacheKey x.1 x.2.1, x.2.2)) ∧
    (∀ k : Str, (mainCycle env db cache (Fetched.ok raw)).cache k =
      (successfulWrites env 0 raw).foldl (fun h w => if w.1 = k then some w.2 else h)
        (cache k)) ∧
    ((∀ i, env.setErr i = false) →
      successfulWrites env 0 raw = (mainCycle env db cache (Fetched.ok raw)).cacheWrites) ∧
    (∀ (i : Nat) (p : RawTicker) (rest : List RawTicker) (st : LoopState),
      validEntry env p = none →
        processEntries env i (p :: rest) st = processEntries env (i + 1) rest st) ∧
    (mainCycle env db cache (Fetched.ok raw)).reported =
      some (mainCycle env db cache (Fetched.ok raw)).batch.length := by
  have hb : (mainCycle env db cache (Fetched.ok raw)).batch = stageAll env db 0 raw := by
    simp [mainCycle, processEntries_batch, initLoop]
  have hw : (mainCycle env db cache (Fetched.ok raw)).cacheWrites =
      (raw.filterMap (validEntry env)).map (fun x => (cacheKey x.1 x.2.1, x.2.2)) := by
    simp [mainCycle, processEntries_cacheWrites, initLoop]
  refine ⟨?_, hw, ?_, ?_, ?_, ?_⟩
  · rw [hb, stageAll_map]
  · intro k
    exact processEntries_cache env 0 raw (initLoop db cache) k
  · intro hs
    rw [hw, successfulWrites_of_ok env hs]
  · intro i p rest st hv
    rw [processEntries, processEntry_skip env i p st hv]
  · have hlen : (stageAll env db 0 raw).length = (raw.filterMap (validEntry env)).length := by
      rw [← stageAll_map env db 0 raw, List.length_map]
    rw [hb, hlen]
    simp [mainCycle, processEntries_count, initLoop]

/-! ## C9 -/

/-- C9: for every fetched list and every table `db`, the table seen by the inner
loop is `db` at every step, and each statement of the staged batch comes from an
entry of the list and carries the change and changePercent computed from what the
lookup made for that entry returns on `db`, the table as it was before the batch
of the cycle was submitted. -/
theorem deltas_from_prior_store (env : Env) (db : Store) (cache : Cache)
    (raw : List RawTicker) :
    (∀ n : Nat, (processEntries env 0 (raw.take n) (initLoop db cache)).db = db) ∧
    (mainCycle env db cache (Fetched.ok raw)).batch = stageAll env db 0 raw ∧
    ∀ u ∈ (mainCycle env db cache (Fetched.ok raw)).batch,
      ∃ (i : Nat) (p : RawTicker), raw[i]? = some p ∧
        validEntry env p = some (u.base, u.quote, u.price) ∧
        u.change =
          (computeDelta u.price (queryPrevPrice (env.queryErr i) db u.base u.quote)).1 ∧
        u.changePercent =
          (computeDelta u.price (queryPrevPrice (env.queryErr i) db u.base u.quote)).2.1 := by
  have hb : (mainCycle env db cache (Fetched.ok raw)).batch = stageAll env db 0 raw := by
    simp [mainCycle, processEntries_batch, initLoop]
  refine ⟨fun n => ?_, hb, ?_⟩
  · rw [processEntries_db]; rfl
  · intro u hu
    rw [hb, mem_stageAll] at hu
    obtain ⟨j, p, hm, hs⟩ := hu
    have hget : raw[j]? = some p := by
      have := (List.mk_mem_enumFrom_iff_le_and_getElem?_sub).1 hm
      simpa using this.2
    refine ⟨j, p, hget, ?_⟩
    unfold stageEntry at hs
    cases hv : validEntry env p with
    | none => simp [hv] at hs
    | some x =>
      simp only [hv, Option.map_some', Option.some.injEq] at hs
      subst hs
      exact ⟨rfl, rfl, rfl⟩

/-! ## C10 -/

/-- C10: a cycle whose fetch or whose decode fails stages nothing and writes nothing
to the cache, leaves the table and the cache as they were, and the run of the
following cycles is the run they would have had without it. -/
theorem failed_fetch_isolated (env : Env) (db : Store) (cache : Cache) (f : Fetched)
    (hf : f = Fetched.fetchError ∨ f = Fetched.decodeError) :
    (mainCycle env db cache f).batch = [] ∧
    (mainCycle env db cache f).cacheWrites = [] ∧
    (mainCycle env db cache f).db = db ∧
    (mainCycle env db cache f).cache = cache ∧
    ∀ rest : List (Env × Fetched),
      mainLoop ((env, f) :: rest) (db, cache) = mainLoop rest (db, cache) := by
  rcases hf with rfl | rfl
  · exact ⟨rfl, rfl, rfl, rfl, fun _ => rfl⟩
  · exact ⟨rfl, rfl, rfl, rfl, fun _ => rfl⟩

theorem failed_fetch_isolated_witness :
    (mainCycle okEnv storeAt50000 emptyCache Fetched.decodeError).batch = [] ∧
    (mainCycle okEnv storeAt50000 emptyCache Fetched.decodeError).cacheWrites = [] ∧
    (mainCycle okEnv storeAt50000 emptyCache Fetched.decodeError).db = storeAt50000 ∧
    (mainCycle okEnv storeAt50000 emptyCache Fetched.decodeError).cache = emptyCache ∧
    ∀ rest : List (Env × Fetched),
      mainLoop ((okEnv, Fetched.decodeError) :: rest) (storeAt50000, emptyCache) =
        mainLoop rest (storeAt50000, emptyCache) :=
  failed_fetch_isolated okEnv storeAt50000 emptyCache Fetched.decodeError (Or.inr rfl)

/-! ## Facts about the batch -/

/-- After the statements of a batch have been applied in order, the row under a key
satisfies `P` when every statement for that key writes a row satisfying `P` and
either some statement is for that key or the row was there and satisfied `P`. -/
theorem foldl_applyUpsert_inv (P : Row → Prop) (k : Str × Str) (batch : List Upsert)
    (db : Store)
    (hall : ∀ u ∈ batch, (u.base, u.quote) = k → P ⟨u.price, u.change, u.changePercent⟩)
    (hex : (∃ u ∈ batch, (u.base, u.quote) = k) ∨ ∃ r, db k = some r ∧ P r) :
    ∃ r, (batch.foldl applyUpsert db) k = some r ∧ P r := by
  induction batch generalizing db with
  | nil =>
    rcases hex with ⟨u, hu, _⟩ | h
    · cases hu
    · exact h
  | cons u rest ih =>
    rw [List.foldl_cons]
    apply ih
    · exact fun w hw hk => hall w (List.mem_cons_of_mem _ hw) hk
    · by_cases hk : (u.base, u.quote) = k
      · right
        refine ⟨⟨u.price, u.change, u.changePercent⟩, ?_, hall u (List.mem_cons_self _ _) hk⟩
        simp [applyUpsert, hk]
      · rcases hex with ⟨w, hw, hwk⟩ | ⟨r, hr, hP⟩
        · rcases List.mem_cons.1 hw with rfl | hw
          · exact absurd hwk hk
          · exact Or.inl ⟨w, hw, hwk⟩
        · right
          refine ⟨r, ?_, hP⟩
          have hk2 : ¬ k = (u.base, u.quote) := fun h => hk h.symm
          simp [applyUpsert, hk2, hr]

/-- The batch of a cycle over a decoded list. -/
theorem mainCycle_batch (env : Env) (db : Store) (cache : Cache) (raw : List RawTicker) :
    (mainCycle env db cache (Fetched.ok raw)).batch = stageAll env db 0 raw := by
  simp [mainCycle, processEntries_batch, initLoop]

/-- The table after a cycle whose batch is applied whole. -/
theorem mainCycle_db (env : Env) (db : Store) (cache : Cache) (raw : List RawTicker)
    (hb : env.batchErr = none) :
    (mainCycle env db cache (Fetched.ok raw)).db =
      (stageAll env db 0 raw).foldl applyUpsert db := by
  simp [mainCycle, processEntries_batch, processEntries_db, initLoop, sendBatch, hb]

/-- A delta against a prior price equal to the new price is zero when the price is
finite. -/
theorem computeDelta_self (v : ℚ) :
    (computeDelta (Amount.fin v) (Amount.fin v)).1 = 0 ∧
      (computeDelta (Amount.fin v) (Amount.fin v)).2.1 = 0 := by
  unfold computeDelta
  by_cases h : v = 0
  · simp [h, Amount.ofNat_eq]
  · simp [h, Amount.ofNat_eq, Amount.fin_sub, Amount.fin_div, Amount.fin_mul]

/-- A delta against a prior price of zero is zero. -/
theorem computeDelta_zero (v : Amount) :
    (computeDelta v 0).1 = 0 ∧ (computeDelta v 0).2.1 = 0 := by
  simp [computeDelta]

/-- The row that a fully successful cycle leaves for a pair named by exactly one
entry of the fetched list. -/
theorem mainCycle_row (env : Env) (db : Store) (cache : Cache) (raw : List RawTicker)
    (b q : Str) (e : RawTicker) (v : Amount) (hq : q ≠ []) (hok : storeOk env)
    (hraw : raw.filter (fun p => decide (splitSymbol p.symbol = (b, q))) = [e])
    (hp : env.parseFloat e.price = some v) :
    (mainCycle env db cache (Fetched.ok raw)).db (b, q) =
      some ⟨v, (computeDelta v (queryPrevPrice false db b q)).1,
        (computeDelta v (queryPrevPrice false db b q)).2.1⟩ := by
  have he : e ∈ raw ∧ splitSymbol e.symbol = (b, q) := by
    have : e ∈ raw.filter (fun p => decide (splitSymbol p.symbol = (b, q))) := by
      rw [hraw]; exact List.mem_singleton_self e
    simpa using List.mem_filter.1 this
  have honly : ∀ p ∈ raw, splitSymbol p.symbol = (b, q) → p = e := by
    intro p hp1 hp2
    have : p ∈ raw.filter (fun p => decide (splitSymbol p.symbol = (b, q))) :=
      List.mem_filter.2 ⟨hp1, by simpa using hp2⟩
    rw [hraw] at this
    exact List.mem_singleton.1 this
  have hve : validEntry env e = some (b, q, v) := validEntry_of env e b q v he.2 hq hp
  rw [mainCycle_db env db cache raw hok.2]
  obtain ⟨r, hr, hP⟩ := foldl_applyUpsert_inv
    (fun r => r = ⟨v, (computeDelta v (queryPrevPrice false db b q)).1,
        (computeDelta v (queryPrevPrice false db b q)).2.1⟩)
    (b, q) (stageAll env db 0 raw) db
    (by
      intro u hu hk
      rw [mem_stageAll] at hu
      obtain ⟨j, p, hm, hs⟩ := hu
      have hpm : p ∈ raw := List.snd_mem_of_mem_enumFrom hm
      unfold stageEntry at hs
      cases hv : validEntry env p with
      | none => simp [hv] at hs
      | some x =>
        simp only [hv, Option.map_some', Option.some.injEq] at hs
        subst hs
        simp only [Prod.mk.injEq] at hk
        have hsp : splitSymbol p.symbol = (b, q) := by
          unfold validEntry at hv
          by_cases hn : (splitSymbol p.symbol).2 = []
          · simp [hn] at hv
          · cases hpp : env.parseFloat p.price with
            | none => simp [hn, hpp] at hv
            | some w =>
              simp only [hn, hpp, if_false, Option.map_some', Option.some.injEq] at hv
              subst hv
              exact Prod.ext hk.1 hk.2
        have hpe := honly p hpm hsp
        subst hpe
        rw [hve] at hv
        simp only [Option.some.injEq] at hv
        subst hv
        simp [hok.1 j])
    (by
      left
      obtain ⟨j, hj⟩ := List.mem_iff_getElem?.1 he.1
      refine ⟨⟨b, q, v, (computeDelta v (queryPrevPrice (env.queryErr j) db b q)).1,
        (computeDelta v (queryPrevPrice (env.queryErr j) db b q)).2.1⟩, ?_, rfl⟩
      rw [mem_stageAll]
      refine ⟨j, e, ?_, ?_⟩
      · exact (List.mk_mem_enumFrom_iff_le_and_getElem?_sub).2 ⟨Nat.zero_le _, by simpa using hj⟩
      · simp [stageEntry, hve])
  rw [hr, hP]

/-! ## C2 -/

/-- C2 (as it holds): after two cycles whose store operations all succeed and whose
fetched lists each name the pair `(b, q)` in exactly one entry, of price `p1` in the
first and `p2` in the second, the row of the pair has price `p2`; its price_change
is `p2 - p1` when `p1` is not zero and `0` when `p1` is zero. -/
theorem two_cycle_upsert (env1 env2 : Env) (db : Store) (cache : Cache)
    (raw1 raw2 : List RawTicker) (b q : Str) (e1 e2 : RawTicker) (p1 p2 : Amount)
    (hq : q ≠ []) (hok1 : storeOk env1) (hok2 : storeOk env2)
    (hraw1 : raw1.filter (fun p => decide (splitSymbol p.symbol = (b, q))) = [e1])
    (hp1 : env1.parseFloat e1.price = some p1)
    (hraw2 : raw2.filter (fun p => decide (splitSymbol p.symbol = (b, q))) = [e2])
    (hp2 : env2.parseFloat e2.price = some p2) :
    ∃ r, (mainCycle env2 (mainCycle env1 db cache (Fetched.ok raw1)).db
        (mainCycle env1 db cache (Fetched.ok raw1)).cache (Fetched.ok raw2)).db (b, q) = some r ∧
      r.price = p2 ∧ (p1 ≠ 0 → r.priceChange = p2 - p1) ∧ (p1 = 0 → r.priceChange = 0) := by
  have h1 := mainCycle_row env1 db cache raw1 b q e1 p1 hq hok1 hraw1 hp1
  have h2 := mainCycle_row env2 (mainCycle env1 db cache (Fetched.ok raw1)).db
    (mainCycle env1 db cache (Fetched.ok raw1)).cache raw2 b q e2 p2 hq hok2 hraw2 hp2
  have hprev : queryPrevPrice false (mainCycle env1 db cache (Fetched.ok raw1)).db b q = p1 := by
    simp [queryPrevPrice, h1]
  rw [hprev] at h2
  refine ⟨_, h2, rfl, ?_, ?_⟩
  · intro hne
    simp [computeDelta, hne]
  · intro hz
    simp [computeDelta, hz]

theorem two_cycle_upsert_witness :
    ∃ r, (mainCycle okEnv (mainCycle okEnv emptyStore emptyCache
          (Fetched.ok [⟨BTCUSDT, price50000⟩])).db
        (mainCycle okEnv emptyStore emptyCache (Fetched.ok [⟨BTCUSDT, price50000⟩])).cache
        (Fetched.ok [⟨BTCUSDT, price51000⟩])).db (BTC, USDT) = some r ∧
      r.price = 51000 ∧ ((50000 : Amount) ≠ 0 → r.priceChange = 51000 - 50000) ∧
      ((50000 : Amount) = 0 → r.priceChange = 0) :=
  two_cycle_upsert okEnv okEnv emptyStore emptyCache
    [⟨BTCUSDT, price50000⟩] [⟨BTCUSDT, price51000⟩] BTC USDT
    ⟨BTCUSDT, price50000⟩ ⟨BTCUSDT, price51000⟩ 50000 51000
    USDT_ne_nil ⟨fun _ => rfl, rfl⟩ ⟨fun _ => rfl, rfl⟩
    (by simp [splitSymbol_BTCUSDT]) parseDecimal_50000
    (by simp [splitSymbol_BTCUSDT]) parseDecimal_51000

/-- C2 (as stated) fails when the first price is zero: after a cycle observing
`BTCUSDT` at `0.00000000` and a cycle observing it at `50000.00`, both with every
store operation succeeding, the row has price `50000` and price_change `0`, which is
not `50000 - 0`. -/
theorem upsert_after_zero_price :
    storeOk okEnv ∧
    okEnv.parseFloat zeroPrice = some 0 ∧
    okEnv.parseFloat price50000 = some 50000 ∧
    (mainCycle okEnv (mainCycle okEnv emptyStore emptyCache
          (Fetched.ok [⟨BTCUSDT, zeroPrice⟩])).db
        (mainCycle okEnv emptyStore emptyCache (Fetched.ok [⟨BTCUSDT, zeroPrice⟩])).cache
        (Fetched.ok [⟨BTCUSDT, price50000⟩])).db (BTC, USDT) = some ⟨50000, 0, 0⟩ ∧
    (⟨50000, 0, 0⟩ : Row).priceChange ≠ 50000 - 0 := by
  have hok : storeOk okEnv := ⟨fun _ => rfl, rfl⟩
  have h1 := mainCycle_row okEnv emptyStore emptyCache [⟨BTCUSDT, zeroPrice⟩]
    BTC USDT ⟨BTCUSDT, zeroPrice⟩ 0 USDT_ne_nil hok
    (by simp [splitSymbol_BTCUSDT]) parseDecimal_zero
  have h2 := mainCycle_row okEnv
    (mainCycle okEnv emptyStore emptyCache (Fetched.ok [⟨BTCUSDT, zeroPrice⟩])).db
    (mainCycle okEnv emptyStore emptyCache (Fetched.ok [⟨BTCUSDT, zeroPrice⟩])).cache
    [⟨BTCUSDT, price50000⟩]
    BTC USDT ⟨BTCUSDT, price50000⟩ 50000 USDT_ne_nil hok
    (by simp [splitSymbol_BTCUSDT]) parseDecimal_50000
  have hprev : queryPrevPrice false (mainCycle okEnv emptyStore emptyCache
      (Fetched.ok [⟨BTCUSDT, zeroPrice⟩])).db BTC USDT = 0 := by
    simp [queryPrevPrice, h1]
  rw [hprev] at h2
  refine ⟨hok, parseDecimal_zero, parseDecimal_50000, ?_, ?_⟩
  · rw [h2]
    simp [computeDelta]
  · simp [Amount.ofNat_eq, Amount.fin_sub]

/-! ## C5 -/

/-- C5 (as it holds): when every price staged from the fetched list is finite and
the entries that stage the same pair all carry the same price, and the first of two
cycles run on that list has its batch applied whole, every change and changePercent
staged by the second cycle is zero. -/
theorem rerun_zero_delta (env1 env2 : Env) (db : Store) (cache : Cache)
    (raw : List RawTicker) (hparse : env2.parseFloat = env1.parseFloat)
    (hok1 : storeOk env1)
    (hfin : ∀ x ∈ raw.filterMap (validEntry env1), x.2.2.isFinite = true)
    (hsame : ∀ x ∈ raw.filterMap (validEntry env1), ∀ y ∈ raw.filterMap (validEntry env1),
      x.1 = y.1 → x.2.1 = y.2.1 → x.2.2 = y.2.2) :
    ∀ u ∈ (mainCycle env2 (mainCycle env1 db cache (Fetched.ok raw)).db
        (mainCycle env1 db cache (Fetched.ok raw)).cache (Fetched.ok raw)).batch,
      u.change = 0 ∧ u.changePercent = 0 := by
  intro u hu
  rw [mainCycle_batch, mem_stageAll] at hu
  obtain ⟨j, p, hm, hs⟩ := hu
  have hpm : p ∈ raw := List.snd_mem_of_mem_enumFrom hm
  have hval : validEntry env2 p = validEntry env1 p := by
    simp [validEntry, hparse]
  unfold stageEntry at hs
  rw [hval] at hs
  cases hv : validEntry env1 p with
  | none => simp [hv] at hs
  | some x =>
    simp only [hv, Option.map_some', Option.some.injEq] at hs
    subst hs
    have hx : x ∈ raw.filterMap (validEntry env1) := List.mem_filterMap.2 ⟨p, hpm, hv⟩
    have hprev : queryPrevPrice (env2.queryErr j)
        (mainCycle env1 db cache (Fetched.ok raw)).db x.1 x.2.1 = 0 ∨
        queryPrevPrice (env2.queryErr j)
        (mainCycle env1 db cache (Fetched.ok raw)).db x.1 x.2.1 = x.2.2 := by
      unfold queryPrevPrice
      by_cases hqe : env2.queryErr j = true
      · left; simp [hqe]
      · right
        rw [mainCycle_db env1 db cache raw hok1.2]
        obtain ⟨r, hr, hP⟩ := foldl_applyUpsert_inv (fun r => r.price = x.2.2)
          (x.1, x.2.1) (stageAll env1 db 0 raw) db
          (by
            intro w hw hk
            have hwm : (w.base, w.quote, w.price) ∈ raw.filterMap (validEntry env1) := by
              rw [← stageAll_map env1 db 0 raw]
              exact List.mem_map.2 ⟨w, hw, rfl⟩
            simp only [Prod.mk.injEq] at hk
            exact hsame _ hwm x hx hk.1 hk.2)
          (by
            left
            have hxm : x ∈ (stageAll env1 db 0 raw).map (fun u => (u.base, u.quote, u.price)) := by
              rw [stageAll_map]; exact hx
            obtain ⟨w, hw, hwx⟩ := List.mem_map.1 hxm
            refine ⟨w, hw, ?_⟩
            rw [← hwx])
        simp [hqe, hr, hP]
    rcases hprev with h0 | hself
    · rw [h0]; exact computeDelta_zero x.2.2
    · obtain ⟨q, hq⟩ := (Amount.isFinite_iff x.2.2).1 (hfin x hx)
      rw [hself, hq]; exact computeDelta_self q

theorem rerun_zero_delta_witness :
    storeOk okEnv ∧
    ∀ u ∈ (mainCycle okEnv (mainCycle okEnv storeAt50000 emptyCache
          (Fetched.ok [⟨BTCUSDT, price51000⟩])).db
        (mainCycle okEnv storeAt50000 emptyCache (Fetched.ok [⟨BTCUSDT, price51000⟩])).cache
        (Fetched.ok [⟨BTCUSDT, price51000⟩])).batch,
      u.change = 0 ∧ u.changePercent = 0 :=
  have hv : validEntry okEnv ⟨BTCUSDT, price51000⟩ = some (BTC, USDT, 51000) :=
    validEntry_of okEnv _ BTC USDT 51000 splitSymbol_BTCUSDT USDT_ne_nil parseDecimal_51000
  ⟨⟨fun _ => rfl, rfl⟩,
   rerun_zero_delta okEnv okEnv storeAt50000 emptyCache [⟨BTCUSDT, price51000⟩] rfl
    ⟨fun _ => rfl, rfl⟩
    (by
      intro x hx
      simp only [List.filterMap_cons, List.filterMap_nil, hv, List.mem_singleton] at hx
      rw [hx]
      rfl)
    (by
      intro x hx y hy _ _
      simp only [List.filterMap_cons, List.filterMap_nil, hv, List.mem_singleton] at hx hy
      rw [hx, hy])⟩

/-- C5 (as stated) fails, both for a list naming one symbol twice with different
prices and for a price that is not finite: run twice on `BTCUSDT` at `1`, `BTCUSDT`
at `2` and `ETHUSDT` at `NaN`, from the empty table and with every store operation
succeeding, the second cycle stages change `-1` and changePercent `-50` for the
first entry and NaN for both in the third. -/
theorem rerun_nonzero_delta :
    storeOk nanEnv ∧
    nanEnv.parseFloat nanPrice = some Amount.nan ∧
    (mainCycle nanEnv (mainCycle nanEnv emptyStore emptyCache (Fetched.ok mixedFeed)).db
        (mainCycle nanEnv emptyStore emptyCache (Fetched.ok mixedFeed)).cache
        (Fetched.ok mixedFeed)).batch =
      [⟨BTC, USDT, 1, -1, -50⟩, ⟨BTC, USDT, 2, 0, 0⟩,
       ⟨ETH, USDT, Amount.nan, Amount.nan, Amount.nan⟩] ∧
    (⟨BTC, USDT, 1, -1, -50⟩ : Upsert).change ≠ 0 ∧
    (⟨BTC, USDT, 1, -1, -50⟩ : Upsert).changePercent ≠ 0 ∧
    (⟨ETH, USDT, Amount.nan, Amount.nan, Amount.nan⟩ : Upsert).change ≠ 0 ∧
    (⟨ETH, USDT, Amount.nan, Amount.nan, Amount.nan⟩ : Upsert).changePercent ≠ 0 := by
  have hok : storeOk nanEnv := ⟨fun _ => rfl, rfl⟩
  have hp1 : nanEnv.parseFloat priceOne = some 1 := by
    have hne : priceOne ≠ nanPrice := by decide
    simp only [nanEnv, parseDecimalOrNaN, if_neg hne]
    exact parseDecimal_1
  have hp2 : nanEnv.parseFloat priceTwo = some 2 := by
    have hne : priceTwo ≠ nanPrice := by decide
    simp only [nanEnv, parseDecimalOrNaN, if_neg hne]
    exact parseDecimal_2
  have hp3 : nanEnv.parseFloat nanPrice = some Amount.nan := by
    simp [nanEnv, parseDecimalOrNaN]
  have hsplitE : splitSymbol ETHUSDT = (ETH, USDT) := by decide
  have hv1 : validEntry nanEnv ⟨BTCUSDT, priceOne⟩ = some (BTC, USDT, 1) :=
    validEntry_of nanEnv _ BTC USDT 1 splitSymbol_BTCUSDT USDT_ne_nil hp1
  have hv2 : validEntry nanEnv ⟨BTCUSDT, priceTwo⟩ = some (BTC, USDT, 2) :=
    validEntry_of nanEnv _ BTC USDT 2 splitSymbol_BTCUSDT USDT_ne_nil hp2
  have hv3 : validEntry nanEnv ⟨ETHUSDT, nanPrice⟩ = some (ETH, USDT, Amount.nan) :=
    validEntry_of nanEnv _ ETH USDT Amount.nan hsplitE USDT_ne_nil hp3
  have hq : ∀ i, nanEnv.queryErr i = false := fun _ => rfl
  have hBE : ¬ BTC = ETH := by decide
  have hEB : ¬ ETH = BTC := by decide
  have hst : stageAll nanEnv emptyStore 0 mixedFeed =
      [⟨BTC, USDT, 1, 0, 0⟩, ⟨BTC, USDT, 2, 0, 0⟩, ⟨ETH, USDT, Amount.nan, 0, 0⟩] := by
    simp only [stageAll, mixedFeed, List.enumFrom_cons, List.enumFrom_nil, List.filterMap_cons,
      List.filterMap_nil, stageEntry, hv1, hv2, hv3, Option.map_some']
    simp [hq, queryPrevPrice, emptyStore, computeDelta]
  have hdbB : (mainCycle nanEnv emptyStore emptyCache (Fetched.ok mixedFeed)).db (BTC, USDT) =
      some ⟨2, 0, 0⟩ := by
    rw [mainCycle_db _ _ _ _ hok.2, hst]
    simp [applyUpsert, hBE]
  have hdbE : (mainCycle nanEnv emptyStore emptyCache (Fetched.ok mixedFeed)).db (ETH, USDT) =
      some ⟨Amount.nan, 0, 0⟩ := by
    rw [mainCycle_db _ _ _ _ hok.2, hst]
    simp [applyUpsert]
  have hnan : (Amount.nan : Amount) ≠ 0 := by decide
  have hd1 : computeDelta 1 2 = (-1, -50, [2]) := by
    simp [computeDelta, Amount.ofNat_eq, Amount.fin_sub, Amount.fin_div, Amount.fin_mul,
      Amount.neg_fin]
    norm_num
  have hd2 : (computeDelta 2 2).1 = 0 ∧ (computeDelta 2 2).2.1 = 0 := computeDelta_self 2
  have hd3 : computeDelta Amount.nan Amount.nan = (Amount.nan, Amount.nan, [Amount.nan]) := by
    simp only [computeDelta, if_pos hnan]
    rfl
  refine ⟨hok, hp3, ?_, ?_, ?_, hnan, hnan⟩
  · rw [mainCycle_batch]
    generalize (mainCycle nanEnv emptyStore emptyCache (Fetched.ok mixedFeed)).db = db1
      at hdbB hdbE
    simp only [stageAll, mixedFeed, List.enumFrom_cons, List.enumFrom_nil, List.filterMap_cons,
      List.filterMap_nil, stageEntry, hv1, hv2, hv3, hq, Option.map_some', queryPrevPrice,
      hdbB, hdbE]
    simp only [List.cons.injEq, Upsert.mk.injEq, and_true, true_and, Bool.false_eq_true,
      if_false]
    rw [hd1, hd3]
    exact ⟨⟨rfl, rfl⟩, hd2, rfl, rfl⟩
  · simp [Amount.ofNat_eq, Amount.neg_fin]
  · simp [Amount.ofNat_eq, Amount.neg_fin]

/-! ## C11 -/

/-- Whether an entry passes the filters depends on the parser alone. -/
theorem validEntry_congr (env1 env2 : Env) (hp : env2.parseFloat = env1.parseFloat)
    (p : RawTicker) : validEntry env2 p = validEntry env1 p := by
  simp [validEntry, hp]

/-- The staged statements depend on the parser and on the lookup outcomes alone. -/
theorem stageAll_congr (env1 env2 : Env) (hp : env2.parseFloat = env1.parseFloat)
    (hq : env2.queryErr = env1.queryErr) (db : Store) (i : Nat) (raw : List RawTicker) :
    stageAll env2 db i raw = stageAll env1 db i raw := by
  unfold stageAll
  congr 1
  funext ip
  simp [stageEntry, validEntry_congr env1 env2 hp, hq]

/-- The cache after the inner loop depends on the parser and on the outcomes of the
Redis writes alone. -/
theorem processEntries_cache_congr (env1 env2 : Env)
    (hp : env2.parseFloat = env1.parseFloat) (hs : env2.setErr = env1.setErr)
    (i : Nat) (raw : List RawTicker) (st1 st2 : LoopState) (hc : st2.cache = st1.cache) :
    (processEntries env2 i raw st2).cache = (processEntries env1 i raw st1).cache := by
  induction raw generalizing i st1 st2 with
  | nil => exact hc
  | cons p rest ih =>
    rw [processEntries, processEntries]
    apply ih
    have hv := validEntry_congr env1 env2 hp p
    cases h : validEntry env1 p with
    | none =>
      rw [processEntry_skip env1 i p st1 h, processEntry_skip env2 i p st2 (hv.trans h)]
      exact hc
    | some x =>
      rw [processEntry_valid env1 i p st1 x h, processEntry_valid env2 i p st2 x (hv.trans h)]
      simp [hs, hc]

/-- C11: two runs of a cycle on the same list and table whose parser and lookup
outcomes agree, whatever their cache-write and batch outcomes, stage the same batch,
and leave the same table when the batch outcome is the same too; they make the same
calls of `SavePrice`, one per valid entry, and leave the same cache when the
cache-write outcomes are the same, whether or not the batch submission fails. -/
theorem batch_independent_of_cache (env1 env2 : Env) (db : Store) (cache : Cache)
    (raw : List RawTicker) (hp : env2.parseFloat = env1.parseFloat)
    (hq : env2.queryErr = env1.queryErr) :
    (mainCycle env2 db cache (Fetched.ok raw)).batch =
      (mainCycle env1 db cache (Fetched.ok raw)).batch ∧
    (env2.batchErr = env1.batchErr →
      (mainCycle env2 db cache (Fetched.ok raw)).db =
        (mainCycle env1 db cache (Fetched.ok raw)).db) ∧
    (mainCycle env2 db cache (Fetched.ok raw)).cacheWrites =
      (mainCycle env1 db cache (Fetched.ok raw)).cacheWrites ∧
    (mainCycle env1 db cache (Fetched.ok raw)).cacheWrites =
      (raw.filterMap (validEntry env1)).map (fun x => (cacheKey x.1 x.2.1, x.2.2)) ∧
    (env2.setErr = env1.setErr →
      (mainCycle env2 db cache (Fetched.ok raw)).cache =
        (mainCycle env1 db cache (Fetched.ok raw)).cache) := by
  have hb : (mainCycle env2 db cache (Fetched.ok raw)).batch =
      (mainCycle env1 db cache (Fetched.ok raw)).batch := by
    rw [mainCycle_batch, mainCycle_batch, stageAll_congr env1 env2 hp hq]
  have hw : ∀ env : Env, (mainCycle env db cache (Fetched.ok raw)).cacheWrites =
      (raw.filterMap (validEntry env)).map (fun x => (cacheKey x.1 x.2.1, x.2.2)) := by
    intro env
    simp [mainCycle, processEntries_cacheWrites, initLoop]
  have hvv : validEntry env2 = validEntry env1 := funext (validEntry_congr env1 env2 hp)
  refine ⟨hb, ?_, ?_, hw env1, ?_⟩
  · intro hbe
    have h1 : ∀ env : Env, (mainCycle env db cache (Fetched.ok raw)).db =
        sendBatch env.batchErr db (mainCycle env db cache (Fetched.ok raw)).batch := by
      intro env
      simp [mainCycle, processEntries_db, initLoop]
    rw [h1 env2, h1 env1, hb, hbe]
  · rw [hw env2, hw env1, hvv]
  · intro hs
    exact processEntries_cache_congr env1 env2 hp hs 0 raw _ _ rfl

theorem batch_independent_of_cache_witness :
    (mainCycle cacheDownEnv storeAt50000 emptyCache (Fetched.ok [⟨BTCUSDT, price51000⟩])).batch =
      (mainCycle batchDownEnv storeAt50000 emptyCache (Fetched.ok [⟨BTCUSDT, price51000⟩])).batch ∧
    (cacheDownEnv.batchErr = batchDownEnv.batchErr →
      (mainCycle cacheDownEnv storeAt50000 emptyCache (Fetched.ok [⟨BTCUSDT, price51000⟩])).db =
        (mainCycle batchDownEnv storeAt50000 emptyCache
          (Fetched.ok [⟨BTCUSDT, price51000⟩])).db) ∧
    (mainCycle cacheDownEnv storeAt50000 emptyCache
        (Fetched.ok [⟨BTCUSDT, price51000⟩])).cacheWrites =
      (mainCycle batchDownEnv storeAt50000 emptyCache
        (Fetched.ok [⟨BTCUSDT, price51000⟩])).cacheWrites ∧
    (mainCycle batchDownEnv storeAt50000 emptyCache
        (Fetched.ok [⟨BTCUSDT, price51000⟩])).cacheWrites =
      ([⟨BTCUSDT, price51000⟩].filterMap (validEntry batchDownEnv)).map
        (fun x => (cacheKey x.1 x.2.1, x.2.2)) ∧
    (cacheDownEnv.setErr = batchDownEnv.setErr →
      (mainCycle cacheDownEnv storeAt50000 emptyCache (Fetched.ok [⟨BTCUSDT, price51000⟩])).cache =
        (mainCycle batchDownEnv storeAt50000 emptyCache
          (Fetched.ok [⟨BTCUSDT, price51000⟩])).cache) :=
  batch_independent_of_cache batchDownEnv cacheDownEnv storeAt50000 emptyCache
    [⟨BTCUSDT, price51000⟩] rfl rfl

/-! ## C12 -/

/-- C12: the cache key is injective on classified pairs.  When `splitSymbol`
classifies two symbols and the keys `base_quote` of the two pairs are equal, the
bases are equal, the quotes are equal and the symbols are equal, whatever
characters the bases contain. -/
theorem cacheKey_injective (s1 s2 : Str)
    (h1 : (splitSymbol s1).2 ≠ []) (h2 : (splitSymbol s2).2 ≠ [])
    (hk : cacheKey (splitSymbol s1).1 (splitSymbol s1).2 =
      cacheKey (splitSymbol s2).1 (splitSymbol s2).2) :
    (splitSymbol s1).1 = (splitSymbol s2).1 ∧ (splitSymbol s1).2 = (splitSymbol s2).2 ∧
      s1 = s2 := by
  have hm1 : (splitSymbol s1).2 ∈ quotes := by
    rcases splitSymbol_cases s1 with ⟨_, h⟩ | ⟨h, _, _⟩
    · rw [h] at h1; exact absurd rfl h1
    · exact h
  have hm2 : (splitSymbol s2).2 ∈ quotes := by
    rcases splitSymbol_cases s2 with ⟨_, h⟩ | ⟨h, _, _⟩
    · rw [h] at h2; exact absurd rfl h2
    · exact h
  have hs1 : (splitSymbol s1).2 <:+ cacheKey (splitSymbol s1).1 (splitSymbol s1).2 :=
    List.suffix_append _ _
  have hs2 : (splitSymbol s2).2 <:+ cacheKey (splitSymbol s1).1 (splitSymbol s1).2 := by
    rw [hk]; exact List.suffix_append _ _
  have hq : (splitSymbol s1).2 = (splitSymbol s2).2 :=
    quote_suffix_unique _ _ _ hm1 hm2 hs1 hs2
  have hb : (splitSymbol s1).1 = (splitSymbol s2).1 := by
    unfold cacheKey at hk
    rw [hq] at hk
    exact List.append_cancel_right (List.append_cancel_right hk)
  refine ⟨hb, hq, ?_⟩
  rw [← splitSymbol_append s1 h1, ← splitSymbol_append s2 h2, hb, hq]

theorem cacheKey_injective_witness :
    (splitSymbol underscoreSymbol).1 = (splitSymbol underscoreSymbol).1 ∧
      (splitSymbol underscoreSymbol).2 = (splitSymbol underscoreSymbol).2 ∧
      underscoreSymbol = underscoreSymbol :=
  cacheKey_injective underscoreSymbol underscoreSymbol (by decide) (by decide) rfl

end Feeder

namespace Judge

/-! ## C13: the earned score -/

/-- The counting loop started from `a` adds the number of passed results to `a`. -/
theorem foldl_count (results : List TestResult) (a : Int) :
    results.foldl (fun passedCount result =>
        if result.Passed then passedCount + 1 else passedCount) a =
      a + ((results.filter (fun t => t.Passed)).length : Int) := by
  induction results generalizing a with
  | nil => simp
  | cons t rest ih =>
    rw [List.foldl_cons, ih]
    cases ht : t.Passed with
    | false => simp [ht]
    | true =>
      simp [ht]
      omega

/-- The value of `passedCount` after the loop is the number of passed results. -/
theorem countPassed_eq (results : List TestResult) :
    countPassed results = ((results.filter (fun t => t.Passed)).length : Int) := by
  unfold countPassed
  rw [foldl_count]
  simp

/-- The count of passed results lies between zero and the number of results. -/
theorem countPassed_bounds (results : List TestResult) :
    0 ≤ countPassed results ∧ countPassed results ≤ (results.length : Int) := by
  rw [countPassed_eq]
  have h := List.length_filter_le (fun t : TestResult => t.Passed) results
  constructor
  · exact Int.natCast_nonneg _
  · exact_mod_cast h

/-- The count reaches the number of results exactly when every result passed. -/
theorem countPassed_eq_length_iff (results : List TestResult) :
    countPassed results = (results.length : Int) ↔ ∀ t ∈ results, t.Passed = true := by
  rw [countPassed_eq]
  constructor
  · intro h
    have h2 : (results.filter (fun t => t.Passed)).length = results.length := by
      exact_mod_cast h
    exact List.filter_length_eq_length.1 h2
  · intro h
    have h2 : (results.filter (fun t => t.Passed)).length = results.length :=
      List.filter_length_eq_length.2 h
    exact_mod_cast h2

/-- One result per test case. -/
theorem runTestCases_length (r : Runner) (problemID : Int) (code language : String) :
    (runTestCases r problemID code language).length = (getTestCases problemID).length := by
  simp [runTestCases]

/-- Five test cases for each of the problems `0` to `6`. -/
theorem getTestCases_length (problemID : Int) (h0 : 0 ≤ problemID) (h6 : problemID ≤ 6) :
    (getTestCases problemID).length = 5 := by
  interval_cases problemID <;> simp [getTestCases]

/-- No test case for any other problem. -/
theorem getTestCases_outside (problemID : Int) (h : ¬ (0 ≤ problemID ∧ problemID ≤ 6)) :
    getTestCases problemID = [] := by
  have e0 : problemID ≠ 0 := by omega
  have e1 : problemID ≠ 1 := by omega
  have e2 : problemID ≠ 2 := by omega
  have e3 : problemID ≠ 3 := by omega
  have e4 : problemID ≠ 4 := by omega
  have e5 : problemID ≠ 5 := by omega
  have e6 : problemID ≠ 6 := by omega
  simp [getTestCases, e0, e1, e2, e3, e4, e5, e6]

/-- The maximal score of the problems `0` to `6` is `10`, `15` or `20`. -/
theorem getProblemMaxScore_values (problemID : Int) (h0 : 0 ≤ problemID)
    (h6 : problemID ≤ 6) :
    getProblemMaxScore problemID = 10 ∨ getProblemMaxScore problemID = 15 ∨
      getProblemMaxScore problemID = 20 := by
  interval_cases problemID <;> simp [getProblemMaxScore]

/-- The truncated quotient `(c * m) / 5` for a count `c` of at most five and one of
the three maximal scores `m`. -/
theorem score_arith (c m : Int) (hc0 : 0 ≤ c) (hc5 : c ≤ 5)
    (hm : m = 10 ∨ m = 15 ∨ m = 20) :
    0 ≤ Int.tdiv (c * m) 5 ∧ Int.tdiv (c * m) 5 ≤ m ∧ (Int.tdiv (c * m) 5 = m ↔ c = 5) := by
  rcases hm with rfl | rfl | rfl <;> interval_cases c <;> decide

/-- C13: the divisor `len(results)` of the earned score is not zero exactly when
`problemID` lies between `0` and `6`: `getTestCases` has five cases for each of these
and none for any other, where `submitCode` ends in the division panic.  For
`problemID` between `0` and `6` and every behaviour of the runs, `submitCode` answers
with `0 ≤ EarnedScore ≤ MaxScore`, and `EarnedScore = MaxScore` exactly when every
test passed, which is also when `AllPassed` is set. -/
theorem earned_score_bounds (r : Runner) (problemID : Int) (code language : String) :
    ((runTestCases r problemID code language).length ≠ 0 ↔
      (0 ≤ problemID ∧ problemID ≤ 6)) ∧
    ((0 ≤ problemID ∧ problemID ≤ 6) → (getTestCases problemID).length = 5) ∧
    (¬ (0 ≤ problemID ∧ problemID ≤ 6) →
      getTestCases problemID = [] ∧ submitCode r problemID code language = none) ∧
    ((0 ≤ problemID ∧ problemID ≤ 6) →
      ∃ resp, submitCode r problemID code language = some resp ∧
        resp.Results = runTestCases r problemID code language ∧
        resp.MaxScore = getProblemMaxScore problemID ∧
        resp.EarnedScore =
          Int.tdiv (countPassed resp.Results * resp.MaxScore) (resp.Results.length : Int) ∧
        0 ≤ resp.EarnedScore ∧ resp.EarnedScore ≤ resp.MaxScore ∧
        (resp.EarnedScore = resp.MaxScore ↔ ∀ t ∈ resp.Results, t.Passed = true) ∧
        (resp.AllPassed = true ↔ ∀ t ∈ resp.Results, t.Passed = true)) := by
  have hin : (0 ≤ problemID ∧ problemID ≤ 6) →
      (runTestCases r problemID code language).length = 5 := by
    intro h
    rw [runTestCases_length, getTestCases_length problemID h.1 h.2]
  have hout : ¬ (0 ≤ problemID ∧ problemID ≤ 6) →
      (runTestCases r problemID code language).length = 0 := by
    intro h
    rw [runTestCases_length, getTestCases_outside problemID h]
    rfl
  refine ⟨?_, ?_, ?_, ?_⟩
  · constructor
    · intro hne
      by_contra h
      exact hne (hout h)
    · intro h
      rw [hin h]
      decide
  · intro h
    exact getTestCases_length problemID h.1 h.2
  · intro h
    refine ⟨getTestCases_outside problemID h, ?_⟩
    simp [submitCode, hout h]
  · intro h
    have hlen := hin h
    have hb := countPassed_bounds (runTestCases r problemID code language)
    have hall := countPassed_eq_length_iff (runTestCases r problemID code language)
    rw [hlen] at hb hall
    have hc5 : countPassed (runTestCases r problemID code language) ≤ 5 := by
      exact_mod_cast hb.2
    have hall5 : countPassed (runTestCases r problemID code language) = 5 ↔
        ∀ t ∈ runTestCases r problemID code language, t.Passed = true := by
      rw [← hall]
      norm_num
    obtain ⟨a0, a1, a2⟩ := score_arith (countPassed (runTestCases r problemID code language))
      (getProblemMaxScore problemID) hb.1 hc5 (getProblemMaxScore_values problemID h.1 h.2)
    have hne : ¬ ((runTestCases r problemID code language).length : Int) = 0 := by
      rw [hlen]; decide
    refine ⟨{ Results := runTestCases r problemID code language
              AllPassed := countPassed (runTestCases r problemID code language) ==
                ((runTestCases r problemID code language).length : Int)
              PassedCount := countPassed (runTestCases r problemID code language)
              TotalTests := ((runTestCases r problemID code language).length : Int)
              MaxScore := getProblemMaxScore problemID
              EarnedScore := Int.tdiv
                (countPassed (runTestCases r problemID code language) *
                  getProblemMaxScore problemID)
                ((runTestCases r problemID code language).length : Int) },
      ?_, rfl, rfl, rfl, ?_, ?_, ?_, ?_⟩
    · unfold submitCode
      exact if_neg hne
    · simpa [hlen] using a0
    · simpa [hlen] using a1
    · simp only [hlen]
      rw [← hall5]
      simpa using a2
    · simp only [hlen]
      rw [← hall5]
      simp

theorem earned_score_bounds_witness :
    ((runTestCases fifteenRunner 1 "" "python").length ≠ 0 ↔ ((0 : Int) ≤ 1 ∧ (1 : Int) ≤ 6)) ∧
    (((0 : Int) ≤ 1 ∧ (1 : Int) ≤ 6) → (getTestCases 1).length = 5) ∧
    (¬ ((0 : Int) ≤ 1 ∧ (1 : Int) ≤ 6) →
      getTestCases 1 = [] ∧ submitCode fifteenRunner 1 "" "python" = none) ∧
    (((0 : Int) ≤ 1 ∧ (1 : Int) ≤ 6) →
      ∃ resp, submitCode fifteenRunner 1 "" "python" = some resp ∧
        resp.Results = runTestCases fifteenRunner 1 "" "python" ∧
        resp.MaxScore = getProblemMaxScore 1 ∧
        resp.EarnedScore =
          Int.tdiv (countPassed resp.Results * resp.MaxScore) (resp.Results.length : Int) ∧
        0 ≤ resp.EarnedScore ∧ resp.EarnedScore ≤ resp.MaxScore ∧
        (resp.EarnedScore = resp.MaxScore ↔ ∀ t ∈ resp.Results, t.Passed = true) ∧
        (resp.AllPassed = true ↔ ∀ t ∈ resp.Results, t.Passed = true)) :=
  earned_score_bounds fifteenRunner 1 "" "python"

end Judge
